import Mathlib

/-!
Verification of the Dixie code-formatter bridge (C# Roslyn host, simple echo
host, and the TypeScript prettier-plugin client/worker) against its
specification.  Strings of the source languages (C# and JavaScript) are
modelled as lists of characters (`Str`); machine doubles used only for memory
accounting are modelled as rationals; JSON values are modelled by an inductive
type with integer numerics (the protocol never requires fractional numbers).
-/

/-! ## JSON values

JavaScript `JSON.stringify`/`JSON.parse` and .NET `JsonSerializer` /
`JsonDocument.Parse` are modelled over an inductive JSON value type.  Numbers
are modelled as integers: the protocol payload fields the claims touch are
integral, and fractional doubles are outside the shallow embedding.  Arrays
and objects use mutually inductive spines so that all recursion over values is
structural (kernel-computable). -/

/-! ## Parser/serialiser inverse lemmas -/

/-! ## Wire protocol and framing (packages/prettier-plugin-c-sharp/src/ipc.ts,
packages' shared protocol.ts zod schemas) -/

/-! ## Roslyn host (src/unnamed/part_012).

The program stream is modelled as a list of characters (UTF-8 decoding of the
byte stream is elided: header and framing characters are ASCII).  Exceptions
of System.Text.Json accessors are modelled with `Except`; the opaque Roslyn
formatter and process-memory samples enter as parameters. -/

/-! ## Echo host (src/unnamed/part_013): line-ending normalisation. -/

/-! ## Client facade (packages/prettier-plugin-nika/src/host-client.ts). -/

/-! ## Worker transport (packages/prettier-plugin-nika/src/host-worker.ts). -/

/-! ## Claim theorems -/

/-- Characters are written through named abbreviations so that the embedding
is explicit about the control characters the codecs treat specially. -/
def CR : Char := Char.ofNat 13

/-- Line-feed character. -/
def LF : Char := Char.ofNat 10

/-- Horizontal tab character. -/
def TAB : Char := Char.ofNat 9

/-- Double-quote character. -/
def DQ : Char := Char.ofNat 34

/-- Backslash character. -/
def BSL : Char := Char.ofNat 92

/-- Model of source-language strings: a list of Unicode scalar values. -/
abbrev Str := List Char

/-- ASCII predicate: the UTF-8 encoding of the character is one byte. -/
def asciiChar (c : Char) : Bool := c.toNat < 128

/-- Number of bytes of the UTF-8 encoding of one character. -/
def utf8Len (c : Char) : Nat :=
  if c.toNat < 128 then 1
  else if c.toNat < 2048 then 2
  else if c.toNat < 65536 then 3
  else 4

/-- Byte length of the UTF-8 encoding of a string (Buffer.byteLength / UTF8.GetBytes). -/
def utf8ByteLength (s : Str) : Nat := (s.map utf8Len).sum

/-- Whether `pat` occurs in `hay` starting at offset `i`. -/
def occursAt (hay pat : Str) (i : Nat) : Prop := pat <+: hay.drop i

instance (hay pat : Str) (i : Nat) : Decidable (occursAt hay pat i) := by
  unfold occursAt; infer_instance

/-- First index at which `pat` occurs in `hay` (string IndexOf / indexOf);
`none` when there is no occurrence. -/
def indexOfSub (hay pat : Str) : Option Nat :=
  go hay 0
where
  go : Str → Nat → Option Nat
    | s, i =>
      if pat.isPrefixOf s then some i
      else match s with
        | [] => none
        | _ :: rest => go rest (i + 1)

mutual

inductive Json where
  | null : Json
  | bool (b : Bool) : Json
  | num (n : Int) : Json
  | str (s : Str) : Json
  | arr (elems : JsonArr) : Json
  | obj (members : JsonObj) : Json
  deriving DecidableEq

inductive JsonArr where
  | nil : JsonArr
  | cons (hd : Json) (tl : JsonArr) : JsonArr
  deriving DecidableEq

inductive JsonObj where
  | nil : JsonObj
  | cons (key : Str) (val : Json) (tl : JsonObj) : JsonObj
  deriving DecidableEq

end

/-- Left brace character (written via its code point). -/
def LBRACE : Char := Char.ofNat 123

/-- Right brace character. -/
def RBRACE : Char := Char.ofNat 125

/-- Decimal digit character for a value below ten. -/
def digitChar10 (d : Nat) : Char := Char.ofNat (48 + d)

/-- Lowercase hexadecimal digit character for a value below sixteen. -/
def hexChar (d : Nat) : Char := if d < 10 then Char.ofNat (48 + d) else Char.ofNat (87 + d)

/-- Base-ten digits of a natural number, least significant first, with
explicit fuel (any fuel at least the number itself suffices). -/
def digitsFuel : Nat → Nat → List Nat
  | 0, _ => []
  | _ + 1, 0 => []
  | fuel + 1, n + 1 => (n + 1) % 10 :: digitsFuel fuel ((n + 1) / 10)

/-- Decimal digits of a natural number, most significant first. -/
def renderNatDigits (n : Nat) : Str :=
  if n = 0 then [digitChar10 0] else ((digitsFuel n n).reverse).map digitChar10

/-- Decimal rendering of an integer (JSON.stringify on an integral number). -/
def renderInt (i : Int) : Str :=
  if i < 0 then '-' :: renderNatDigits i.natAbs else renderNatDigits i.natAbs

/-- JSON string escaping as performed by JSON.stringify: quote, backslash and
control characters are escaped; everything else is copied verbatim. -/
def escapeChar (c : Char) : Str :=
  if c = DQ then [BSL, DQ]
  else if c = BSL then [BSL, BSL]
  else if c = LF then [BSL, 'n']
  else if c = CR then [BSL, 'r']
  else if c = TAB then [BSL, 't']
  else if c = Char.ofNat 8 then [BSL, 'b']
  else if c = Char.ofNat 12 then [BSL, 'f']
  else if c.toNat < 32 then [BSL, 'u', '0', '0', hexChar (c.toNat / 16), hexChar (c.toNat % 16)]
  else [c]

/-- Escape a whole string body. -/
def escapeStr (s : Str) : Str := s.flatMap escapeChar

/-- Rendered JSON string literal, including the surrounding quotes. -/
def renderString (s : Str) : Str := DQ :: escapeStr s ++ [DQ]

mutual

/-- Compact JSON serialisation (JSON.stringify: no whitespace, insertion
order of object members preserved). -/
def renderJson : Json → Str
  | .null => ['n', 'u', 'l', 'l']
  | .bool false => ['f', 'a', 'l', 's', 'e']
  | .bool true => ['t', 'r', 'u', 'e']
  | .num i => renderInt i
  | .str s => renderString s
  | .arr .nil => ['[', ']']
  | .arr (.cons v vs) => '[' :: (renderJson v ++ renderArrTail vs ++ [']'])
  | .obj .nil => [LBRACE, RBRACE]
  | .obj (.cons k v ms) =>
      LBRACE :: (renderString k ++ ':' :: renderJson v ++ renderObjTail ms ++ [RBRACE])

/-- Remaining array elements, each preceded by a comma. -/
def renderArrTail : JsonArr → Str
  | .nil => []
  | .cons v vs => ',' :: (renderJson v ++ renderArrTail vs)

/-- Remaining object members, each preceded by a comma. -/
def renderObjTail : JsonObj → Str
  | .nil => []
  | .cons k v ms => ',' :: (renderString k ++ ':' :: renderJson v ++ renderObjTail ms)

end

/-- JSON insignificant whitespace. -/
def isJsonWs (c : Char) : Bool := c = ' ' || c = TAB || c = LF || c = CR

/-- Skip insignificant whitespace. -/
def skipWs : Str → Str
  | [] => []
  | c :: rest => if isJsonWs c then skipWs rest else c :: rest

/-- Decimal digit test. -/
def isDigitChar (c : Char) : Bool := 48 ≤ c.toNat && c.toNat ≤ 57

/-- Leading run of decimal digits. -/
def spanDigits : Str → Str × Str
  | [] => ([], [])
  | c :: rest =>
    if isDigitChar c then
      let p := spanDigits rest
      (c :: p.1, p.2)
    else ([], c :: rest)

/-- Numeric value of a digit string, most significant first. -/
def digitsVal (ds : Str) : Nat := ds.foldl (fun a c => a * 10 + (c.toNat - 48)) 0

/-- Hex digit value, if the character is a hex digit. -/
def hexVal (c : Char) : Option Nat :=
  if 48 ≤ c.toNat ∧ c.toNat ≤ 57 then some (c.toNat - 48)
  else if 97 ≤ c.toNat ∧ c.toNat ≤ 102 then some (c.toNat - 87)
  else if 65 ≤ c.toNat ∧ c.toNat ≤ 70 then some (c.toNat - 55)
  else none

/-- Body of a JSON string literal after the opening quote: unescapes until the
closing quote, rejecting unterminated literals and raw control characters. -/
def parseStringBody : Str → Option (Str × Str)
  | [] => none
  | c :: rest =>
    if c = DQ then some ([], rest)
    else if c = BSL then
      match rest with
      | [] => none
      | e :: r2 =>
        if e = DQ then (parseStringBody r2).map (fun p => (DQ :: p.1, p.2))
        else if e = BSL then (parseStringBody r2).map (fun p => (BSL :: p.1, p.2))
        else if e = '/' then (parseStringBody r2).map (fun p => ('/' :: p.1, p.2))
        else if e = 'n' then (parseStringBody r2).map (fun p => (LF :: p.1, p.2))
        else if e = 'r' then (parseStringBody r2).map (fun p => (CR :: p.1, p.2))
        else if e = 't' then (parseStringBody r2).map (fun p => (TAB :: p.1, p.2))
        else if e = 'b' then (parseStringBody r2).map (fun p => (Char.ofNat 8 :: p.1, p.2))
        else if e = 'f' then (parseStringBody r2).map (fun p => (Char.ofNat 12 :: p.1, p.2))
        else if e = 'u' then
          match r2 with
          | h1 :: h2 :: h3 :: h4 :: r3 =>
            match hexVal h1, hexVal h2, hexVal h3, hexVal h4 with
            | some a, some b, some c3, some d =>
              (parseStringBody r3).map
                (fun p => (Char.ofNat (((a * 16 + b) * 16 + c3) * 16 + d) :: p.1, p.2))
            | _, _, _, _ => none
          | _ => none
        else none
    else if c.toNat < 32 then none
    else (parseStringBody rest).map (fun p => (c :: p.1, p.2))

/-- JSON number (integral part only: the protocol model does not carry
fractional doubles; a fraction or exponent makes the parse fail). -/
def parseNumber (s : Str) : Option (Int × Str) :=
  match s with
  | '-' :: rest =>
    match parseNatPart rest with
    | some (n, r) => some (-(n : Int), r)
    | none => none
  | _ =>
    match parseNatPart s with
    | some (n, r) => some ((n : Int), r)
    | none => none
where
  /-- Digits with the JSON leading-zero restriction, rejecting a following
  fraction or exponent marker. -/
  parseNatPart (s : Str) : Option (Nat × Str) :=
    let p := spanDigits s
    if p.1 = [] then none
    else if p.1.length > 1 ∧ p.1.head? = some (digitChar10 0) then none
    else match p.2 with
      | c :: _ => if c = '.' ∨ c = 'e' ∨ c = 'E' then none else some (digitsVal p.1, p.2)
      | [] => some (digitsVal p.1, p.2)

mutual

/-- Fuel-indexed JSON value parse (models JSON.parse / JsonDocument.Parse on
the integral-numeric fragment).  Returns the value and the remaining input. -/
def parseValue : Nat → Str → Option (Json × Str)
  | 0, _ => none
  | f + 1, s0 =>
    match skipWs s0 with
    | [] => none
    | c :: rest =>
      if c = DQ then (parseStringBody rest).map (fun p => (Json.str p.1, p.2))
      else if c = '[' then
        match skipWs rest with
        | [] => none
        | c2 :: r2 =>
          if c2 = ']' then some (Json.arr .nil, r2)
          else
            match parseValue f (c2 :: r2) with
            | none => none
            | some (v, r3) =>
              match parseArrRest f r3 with
              | none => none
              | some (vs, r4) => some (Json.arr (.cons v vs), r4)
      else if c = LBRACE then
        match skipWs rest with
        | [] => none
        | c2 :: r2 =>
          if c2 = RBRACE then some (Json.obj .nil, r2)
          else if c2 = DQ then
            match parseStringBody r2 with
            | none => none
            | some (k, r3) =>
              match skipWs r3 with
              | ':' :: r4 =>
                match parseValue f r4 with
                | none => none
                | some (v, r5) =>
                  match parseObjRest f r5 with
                  | none => none
                  | some (ms, r6) => some (Json.obj (.cons k v ms), r6)
              | _ => none
          else none
      else if c = 'n' then
        match rest with
        | 'u' :: 'l' :: 'l' :: r => some (Json.null, r)
        | _ => none
      else if c = 't' then
        match rest with
        | 'r' :: 'u' :: 'e' :: r => some (Json.bool true, r)
        | _ => none
      else if c = 'f' then
        match rest with
        | 'a' :: 'l' :: 's' :: 'e' :: r => some (Json.bool false, r)
        | _ => none
      else if c = '-' ∨ isDigitChar c then
        (parseNumber (c :: rest)).map (fun p => (Json.num p.1, p.2))
      else none

/-- Array elements after the first: a comma and a value, until the bracket. -/
def parseArrRest : Nat → Str → Option (JsonArr × Str)
  | 0, _ => none
  | f + 1, s0 =>
    match skipWs s0 with
    | [] => none
    | c :: rest =>
      if c = ']' then some (.nil, rest)
      else if c = ',' then
        match parseValue f rest with
        | none => none
        | some (v, r2) =>
          match parseArrRest f r2 with
          | none => none
          | some (vs, r3) => some (.cons v vs, r3)
      else none

/-- Object members after the first: a comma, a key, a colon and a value. -/
def parseObjRest : Nat → Str → Option (JsonObj × Str)
  | 0, _ => none
  | f + 1, s0 =>
    match skipWs s0 with
    | [] => none
    | c :: rest =>
      if c = RBRACE then some (.nil, rest)
      else if c = ',' then
        match skipWs rest with
        | c2 :: r2 =>
          if c2 = DQ then
            match parseStringBody r2 with
            | none => none
            | some (k, r3) =>
              match skipWs r3 with
              | ':' :: r4 =>
                match parseValue f r4 with
                | none => none
                | some (v, r5) =>
                  match parseObjRest f r5 with
                  | none => none
                  | some (ms, r6) => some (.cons k v ms, r6)
              | _ => none
          else none
        | [] => none
      else none

end

/-- Whole-input JSON parse: the parsed value with only whitespace after it. -/
def parseJson (s : Str) : Option Json :=
  match parseValue (s.length + 1) s with
  | some (v, rest) => if skipWs rest = [] then some v else none
  | none => none

/-- Tail restriction needed after parsing a JSON number: the next character
must not extend the numeric token. -/
def numTailOk (rest : Str) : Prop :=
  ∀ c, rest.head? = some c → isDigitChar c = false ∧ c ≠ '.' ∧ c ≠ 'e' ∧ c ≠ 'E'

/-- Tail condition under which a parsed value stops exactly at the rendered
boundary (only numbers constrain their tail). -/
def tailOk : Json → Str → Prop
  | .num _, rest => numTailOk rest
  | _, _ => True

mutual

/-- Fuel lower bound under which `parseValue` is total on a rendered value. -/
def needV : Json → Nat
  | .null => 1
  | .bool _ => 1
  | .num _ => 1
  | .str _ => 1
  | .arr .nil => 1
  | .arr (.cons v vs) => 1 + needV v + needA vs
  | .obj .nil => 1
  | .obj (.cons _ v ms) => 1 + needV v + needO ms

/-- Fuel lower bound for the array-tail loop. -/
def needA : JsonArr → Nat
  | .nil => 1
  | .cons v vs => 1 + needV v + needA vs

/-- Fuel lower bound for the object-tail loop. -/
def needO : JsonObj → Nat
  | .nil => 1
  | .cons _ v ms => 1 + needV v + needO ms

end

namespace Ipc

/-- Protocol command enumeration (`commandSchema`).  The first wire value is
the string "initialize"; its constructor is abbreviated to `init`. -/
inductive Command where
  | init
  | format
  | ping
  | shutdown
  | log
  | error
  deriving DecidableEq

/-- Wire spelling of a command. -/
def Command.wireName : Command → Str
  | .init => "initialize".toList
  | .format => "format".toList
  | .ping => "ping".toList
  | .shutdown => "shutdown".toList
  | .log => "log".toList
  | .error => "error".toList

/-- Wire string to command (zod enum validation). -/
def commandOfStr (s : Str) : Option Command :=
  if s = "initialize".toList then some .init
  else if s = "format".toList then some .format
  else if s = "ping".toList then some .ping
  else if s = "shutdown".toList then some .shutdown
  else if s = "log".toList then some .log
  else if s = "error".toList then some .error
  else none

/-- Envelope type enumeration (`messageTypeSchema`). -/
inductive MessageType where
  | request
  | response
  | notification
  deriving DecidableEq

/-- Wire spelling of an envelope type. -/
def MessageType.wireName : MessageType → Str
  | .request => "request".toList
  | .response => "response".toList
  | .notification => "notification".toList

/-- Wire string to envelope type (zod enum validation). -/
def messageTypeOfStr (s : Str) : Option MessageType :=
  if s = "request".toList then some .request
  else if s = "response".toList then some .response
  else if s = "notification".toList then some .notification
  else none

/-- A request envelope as produced by `createRequest`: the `type` field is the
fixed string "request" and all five properties are present. -/
structure RequestEnvelope where
  version : Int
  requestId : Str
  command : Command
  payload : Json
  deriving DecidableEq

/-- An envelope accepted by `messageEnvelopeSchema` (unknown keys stripped;
`requestId` and `payload` may be absent). -/
structure MessageEnvelope where
  version : Int
  type : MessageType
  requestId : Option Str
  command : Command
  payload : Option Json
  deriving DecidableEq

/-- The JavaScript object value of a request envelope, with property insertion
order exactly as written in `createRequest`. -/
def requestJson (e : RequestEnvelope) : Json :=
  .obj (.cons "version".toList (.num e.version)
    (.cons "type".toList (.str "request".toList)
      (.cons "requestId".toList (.str e.requestId)
        (.cons "command".toList (.str e.command.wireName)
          (.cons "payload".toList e.payload .nil)))))

/-- The `MessageEnvelope` view of a freshly created request. -/
def toMessageEnvelope (e : RequestEnvelope) : MessageEnvelope :=
  { version := e.version
    type := .request
    requestId := some e.requestId
    command := e.command
    payload := some e.payload }

/-- encodeMessage: serialise to JSON, measure its UTF-8 byte length, and emit
the ASCII header plus the JSON text. -/
def encodeMessage (e : RequestEnvelope) : Str :=
  let json := renderJson (requestJson e)
  let bytes := utf8ByteLength json
  "Content-Length: ".toList ++ renderNatDigits bytes ++ [CR, LF, CR, LF] ++ json

/-- JavaScript property access on a parsed JSON object: later duplicate keys
overwrite earlier ones. -/
def jsGet : JsonObj → Str → Option Json
  | .nil, _ => none
  | .cons k v rest, key =>
    match jsGet rest key with
    | some v2 => some v2
    | none => if k = key then some v else none

/-- The zod `messageEnvelopeSchema.parse`: validates the shape and strips
unknown keys; fails (throws) on a non-object, wrong field type or unknown
enum value. -/
def envelopeOfJson : Json → Option MessageEnvelope
  | .obj m =>
    match jsGet m "version".toList with
    | some (.num v) =>
      match jsGet m "type".toList with
      | some (.str t) =>
        match messageTypeOfStr t with
        | some mt =>
          match jsGet m "requestId".toList with
          | some (.str rid) =>
            match jsGet m "command".toList with
            | some (.str c) =>
              match commandOfStr c with
              | some cmd => some ⟨v, mt, some rid, cmd, jsGet m "payload".toList⟩
              | none => none
            | _ => none
          | none =>
            match jsGet m "command".toList with
            | some (.str c) =>
              match commandOfStr c with
              | some cmd => some ⟨v, mt, none, cmd, jsGet m "payload".toList⟩
              | none => none
            | _ => none
          | some _ => none
        | none => none
      | _ => none
    | _ => none
  | _ => none

/-- JavaScript `String.prototype.trim` (on the whitespace the protocol uses). -/
def jsTrim (s : Str) : Str :=
  ((s.dropWhile isJsonWs).reverse.dropWhile isJsonWs).reverse

/-- Value of the leading digit run, if nonempty. -/
def digitsPrefixVal (r : Str) : Option Nat :=
  let p := spanDigits r
  if p.1 = [] then none else some (digitsVal p.1)

/-- JavaScript `Number.parseInt(x, 10)`: skip leading whitespace, optional
sign, then the maximal digit run; NaN (`none`) when no digits follow. -/
def jsParseInt (s : Str) : Option Int :=
  let t := s.dropWhile isJsonWs
  match t with
  | '-' :: r => (digitsPrefixVal r).map (fun n => -(n : Int))
  | '+' :: r => (digitsPrefixVal r).map (fun n => (n : Int))
  | r => (digitsPrefixVal r).map (fun n => (n : Int))

/-- Split on a single character (JavaScript `split(":")`). -/
def splitOnChar (sep : Char) : Str → List Str
  | [] => [[]]
  | c :: rest =>
    if c = sep then [] :: splitOnChar sep rest
    else
      match splitOnChar sep rest with
      | [] => [[c]]
      | h :: t => (c :: h) :: t

/-- Split on a multi-character separator (JavaScript `split("\r\n")`). -/
def splitOnSub (s sep : Str) : List Str :=
  go (s.length + 1) s
where
  go : Nat → Str → List Str
    | 0, s => [s]
    | f + 1, s =>
      match indexOfSub s sep with
      | none => [s]
      | some i => s.take i :: go f (s.drop (i + sep.length))

/-- Lower-case a string (JavaScript `toLowerCase` on the ASCII range used by
the header comparison). -/
def toLowerStr (s : Str) : Str := s.map Char.toLower

/-- Skip the `\r`/`\n` characters between frames. -/
def skipCrLf : Str → Str
  | [] => []
  | c :: rest => if c = CR ∨ c = LF then skipCrLf rest else c :: rest

/-- parseEnvelopes: scan `Content-Length`-framed JSON envelopes out of a
string.  Deviations from a successful scan mirror the code: a missing header
terminator, missing or non-numeric `Content-Length`, or a truncated body stop
the loop (returning what was parsed so far); an unparsable body or an invalid
envelope shape throws (`Except.error`).  The cursor arithmetic of the source
is represented by recursing on the remaining suffix. -/
def parseEnvelopes (output : Str) : Except Unit (List MessageEnvelope) :=
  go (output.length + 1) output
where
  go : Nat → Str → Except Unit (List MessageEnvelope)
    | 0, _ => .ok []
    | f + 1, s =>
      if s.length = 0 then .ok []
      else
        match indexOfSub s [CR, LF, CR, LF] with
        | none => .ok []
        | some headerEnd =>
          let headerBlock := s.take headerEnd
          let headers := splitOnSub headerBlock [CR, LF]
          match headers.find?
            (fun line => "content-length".toList.isPrefixOf (toLowerStr line)) with
          | none => .ok []
          | some contentLengthLine =>
            let value := (splitOnChar ':' contentLengthLine).get? 1
            match jsParseInt (jsTrim (value.getD [])) with
            | none => .ok []
            | some len =>
              if len < 0 then .ok []
              else
                let bodyStart := headerEnd + 4
                let bodyEnd := bodyStart + len.toNat
                if bodyEnd > s.length then .ok []
                else
                  match parseJson ((s.drop bodyStart).take len.toNat) with
                  | none => .error ()
                  | some js =>
                    match envelopeOfJson js with
                    | none => .error ()
                    | some env =>
                      match go f (skipCrLf (s.drop bodyEnd)) with
                      | .ok tail => .ok (env :: tail)
                      | .error e => .error e

end Ipc

namespace DixieHost

/-- Case-insensitive key comparison of the header dictionary
(StringComparer.OrdinalIgnoreCase on the ASCII header names in use). -/
def headerKeyEq (a b : Str) : Bool := Ipc.toLowerStr a = Ipc.toLowerStr b

/-- C# `int.TryParse` with NumberStyles.Integer: optional surrounding
whitespace, optional sign, decimal digits, 32-bit range. -/
def tryParseInt (s : Str) : Option Int :=
  let t := Ipc.jsTrim s
  let signAndDigits : Bool × Str :=
    match t with
    | '-' :: r => (true, r)
    | '+' :: r => (false, r)
    | r => (false, r)
  let ds := signAndDigits.2
  if ds = [] then none
  else if ds.all isDigitChar then
    let v : Int := if signAndDigits.1 then -((digitsVal ds : Nat) : Int) else ((digitsVal ds : Nat) : Int)
    if -2147483648 ≤ v ∧ v ≤ 2147483647 then some v else none
  else none

/-- ReadLine: read a line terminated by `\n` or `\r\n`; a lone `\r` followed by
another character is kept in the line (the accumulating loop of the source). -/
def readLineGo (acc : Str) : Str → Str × Str
  | [] => (acc, [])
  | c :: rest =>
    if c = CR then
      match rest with
      | [] => (acc, [])
      | c2 :: r2 => if c2 = LF then (acc, r2) else readLineGo (acc ++ [CR, c2]) r2
    else if c = LF then (acc, rest)
    else readLineGo (acc ++ [c]) rest

/-- ReadLine returns null (`none`) only at end of stream with nothing read. -/
def readLine : Str → Option (Str × Str)
  | [] => none
  | c :: rest => some (readLineGo [] (c :: rest))

/-- Case-insensitive dictionary update (`headers[name] = value`). -/
def dictSet (d : List (Str × Str)) (k v : Str) : List (Str × Str) :=
  match d with
  | [] => [(k, v)]
  | (k0, v0) :: rest => if headerKeyEq k0 k then (k0, v) :: rest else (k0, v0) :: dictSet rest k v

/-- Case-insensitive dictionary lookup (`TryGetValue`). -/
def dictGet (d : List (Str × Str)) (k : Str) : Option Str :=
  (d.find? (fun p => headerKeyEq p.1 k)).map (fun p => p.2)

/-- ReadHeaders: accumulate `name: value` lines until a blank line; `none` for
end of input before any header line. -/
def readHeaders (s : Str) : Option (List (Str × Str)) × Str :=
  go (s.length + 1) [] s
where
  go : Nat → List (Str × Str) → Str → Option (List (Str × Str)) × Str
    | 0, headers, s => (some headers, s)
    | f + 1, headers, s =>
      match readLine s with
      | none => (if headers.isEmpty then none else some headers, s)
      | some (line, rest) =>
        if line.length = 0 then (some headers, rest)
        else
          match indexOfSub line [':'] with
          | none => go f headers rest
          | some i =>
            if i = 0 then go f headers rest
            else go f (dictSet headers (Ipc.jsTrim (line.take i)) (Ipc.jsTrim (line.drop (i + 1)))) rest

/-- ReadBody: exactly `len` characters, or end-of-stream (`none`). -/
def readBody (s : Str) (len : Nat) : Option (Str × Str) :=
  if s.length < len then none else some (s.take len, s.drop len)

/-- First-wins object property lookup (JsonElement.TryGetProperty). -/
def objGetFirst : JsonObj → Str → Option Json
  | .nil, _ => none
  | .cons k v rest, key => if k = key then some v else objGetFirst rest key

/-- TryGetProperty throws on a non-object element. -/
def tryGetProperty (j : Json) (key : Str) : Except Unit (Option Json) :=
  match j with
  | .obj m => .ok (objGetFirst m key)
  | _ => .error ()

/-- GetString: a string or null, anything else throws. -/
def getString : Json → Except Unit (Option Str)
  | .str s => .ok (some s)
  | .null => .ok none
  | _ => .error ()

/-- string.IsNullOrWhiteSpace. -/
def isNullOrWhiteSpace : Option Str → Bool
  | none => true
  | some s => s.all isJsonWs

/-- string.Equals(a, b, StringComparison.OrdinalIgnoreCase) with a possibly
null first argument. -/
def equalsIgnoreCase (a : Option Str) (b : Str) : Bool :=
  match a with
  | none => false
  | some s => Ipc.toLowerStr s = Ipc.toLowerStr b

/-- The four dispatchable commands of the host switch. -/
inductive HostCommand where
  | init
  | format
  | ping
  | shutdown
  deriving DecidableEq

/-- Error message for an unsupported envelope type. -/
def unsupportedTypeMsg (t : Option Str) : Str :=
  "Unsupported message type \x27".toList ++ t.getD "null".toList ++ "\x27.".toList

/-- Error message for a request without a command. -/
def missingCommandMsg : Str := "Request missing \x27command\x27 property.".toList

/-- Error message for an unknown command. -/
def unknownCommandMsg (c : Str) : Str :=
  "Unknown command \x27".toList ++ c ++ "\x27.".toList

/-- Error message for a missing or invalid Content-Length header. -/
def invalidHeadersMsg : Str := "Missing or invalid Content-Length header.".toList

/-- One action of the host main loop: an error response, a dispatched command
handler, or a fatal error notification before exiting (the INTERNAL_ERROR
catch-all). -/
inductive HostAction where
  | errorResponse (requestId : Option Str) (command : Str) (errorCode : Str) (message : Str)
  | handle (cmd : HostCommand) (requestId : Option Str) (payload : Option Json)
  | fatalError (errorCode : Str)
  deriving DecidableEq

/-- Dispatch of a parsed request document: extract requestId, command and
type, validate the type (defaulting to "request" when absent, compared
case-insensitively), validate the command, and switch on it. -/
def hostDispatch (root : Json) : HostAction :=
  match tryGetProperty root "requestId".toList with
  | .error _ => .fatalError "INTERNAL_ERROR".toList
  | .ok ridEl =>
    match (match ridEl with | some el => getString el | none => .ok none) with
    | .error _ => .fatalError "INTERNAL_ERROR".toList
    | .ok requestId =>
      match tryGetProperty root "command".toList with
      | .error _ => .fatalError "INTERNAL_ERROR".toList
      | .ok cmdEl =>
        match (match cmdEl with | some el => getString el | none => .ok none) with
        | .error _ => .fatalError "INTERNAL_ERROR".toList
        | .ok command =>
          match tryGetProperty root "type".toList with
          | .error _ => .fatalError "INTERNAL_ERROR".toList
          | .ok typeEl =>
            match (match typeEl with
              | some el => (getString el).map id
              | none => .ok (some "request".toList)) with
            | .error _ => .fatalError "INTERNAL_ERROR".toList
            | .ok messageType =>
              if equalsIgnoreCase messageType "request".toList = false then
                .errorResponse requestId (command.getD "unknown".toList)
                  "INVALID_MESSAGE".toList (unsupportedTypeMsg messageType)
              else if isNullOrWhiteSpace command then
                .errorResponse requestId (command.getD "unknown".toList)
                  "INVALID_MESSAGE".toList missingCommandMsg
              else
                match tryGetProperty root "payload".toList with
                | .error _ => .fatalError "INTERNAL_ERROR".toList
                | .ok payload =>
                  let c := command.getD []
                  if c = "initialize".toList then .handle .init requestId payload
                  else if c = "format".toList then .handle .format requestId payload
                  else if c = "ping".toList then .handle .ping requestId payload
                  else if c = "shutdown".toList then .handle .shutdown requestId payload
                  else .errorResponse requestId c "UNKNOWN_COMMAND".toList (unknownCommandMsg c)

/-- Result of processing one frame of the input stream. -/
inductive StepResult where
  | frame (actions : List HostAction) (stop : Option Nat) (rest : Str)
  | eof
  deriving DecidableEq

/-- Stop marker: shutdown exits the loop normally (code 0 after the reply);
a fatal error notification breaks the loop. -/
def stopOf (a : HostAction) : Option Nat :=
  match a with
  | .handle .shutdown _ _ => some 0
  | .fatalError _ => some 1
  | _ => none

/-- Generic parse-failure message (the source interpolates the exception
text; the constant stands for it). -/
def invalidJsonMsg : Str := "Failed to parse request JSON.".toList

/-- One iteration of the host main loop: read headers, validate
Content-Length, read the body, parse it and dispatch. -/
def hostStep (s : Str) : StepResult :=
  match readHeaders s with
  | (none, _) => .eof
  | (some headers, rest) =>
    let lenOk : Option Nat :=
      match dictGet headers "Content-Length".toList with
      | none => none
      | some v =>
        match tryParseInt v with
        | none => none
        | some i => if i < 0 then none else some i.toNat
    match lenOk with
    | none =>
      .frame [.errorResponse none "unknown".toList "INVALID_HEADERS".toList invalidHeadersMsg]
        none rest
    | some len =>
      match readBody rest len with
      | none => .eof
      | some (body, rest2) =>
        match parseJson body with
        | none =>
          .frame [.errorResponse none "unknown".toList "INVALID_JSON".toList invalidJsonMsg]
            none rest2
        | some root =>
          let act := hostDispatch root
          .frame [act] (stopOf act) rest2

/-- How the loop ended. -/
inductive ExitKind where
  | eofExit
  | shutdownExit
  | fatalExit
  | fuelOut
  deriving DecidableEq

/-- Fuel-driven main loop. -/
def hostRun : Nat → Str → List HostAction × ExitKind
  | 0, _ => ([], .fuelOut)
  | f + 1, s =>
    match hostStep s with
    | .eof => ([], .eofExit)
    | .frame acts (some code) _ =>
      (acts, if code = 0 then .shutdownExit else .fatalExit)
    | .frame acts none rest =>
      let t := hostRun f rest
      (acts ++ t.1, t.2)

/-- The host main entry: enough fuel to consume the whole stream. -/
def hostMain (s : Str) : List HostAction × ExitKind := hostRun (s.length + 1) s

/-- The TODO text-inspection diagnostic of FormatWithRoslyn. -/
structure Diagnostic where
  severity : Str
  message : Str
  start : Nat
  /-- The exclusive end offset (the source field is named `end`). -/
  endPos : Nat
  deriving DecidableEq

/-- Message of the synthetic TODO diagnostic. -/
def todoMessage : Str := "TODO comment detected.".toList

/-- The synthetic warning for a TODO at offset `i`, with span `[i, i+4)`. -/
def mkTodoDiag (i : Nat) : Diagnostic :=
  { severity := "warning".toList, message := todoMessage, start := i, endPos := i + 4 }

/-- The diagnostics FormatWithRoslyn appends from text inspection: one
warning at the first occurrence of "TODO" in the request content (IndexOf),
or nothing. -/
def todoDiagnostics (content : Str) : List Diagnostic :=
  match indexOfSub content "TODO".toList with
  | some i => [mkTodoDiag i]
  | none => []

/-- EnsureTrailingNewline of the Roslyn host (two-argument form). -/
def EnsureTrailingNewline (text endOfLine : Str) : Str :=
  if text = [] then endOfLine
  else if endOfLine.isSuffixOf text then text
  else if endOfLine = [CR, LF] then
    (if [CR].isSuffixOf text then text ++ [LF] else text ++ endOfLine)
  else if [LF].isSuffixOf text then text
  else if [CR].isSuffixOf text then text ++ [LF]
  else text ++ [LF]

/-- GetMemoryBudgetMb: the parsed value of the budget environment variable if
it is set, parseable and positive, else the 512 MB default.  The `env`
argument is the parsed value of `DIXIE_HOST_MEMORY_BUDGET_MB` when
double.TryParse succeeds, `none` otherwise. -/
def GetMemoryBudgetMb (env : Option ℚ) : ℚ :=
  match env with
  | some parsed => if parsed > 0 then parsed else 512
  | none => 512

/-- Math.Round(x, 2) with banker's (to-even) midpoint rounding. -/
def round2even (q : ℚ) : ℚ :=
  let y := q * 100
  let n : ℤ := ⌊y⌋
  let r := y - (n : ℚ)
  let v : ℤ :=
    if r < 1 / 2 then n
    else if r > 1 / 2 then n + 1
    else if Even n then n else n + 1
  (v : ℚ) / 100

/-- Memory values sampled around one format request (doubles modelled as
rationals). -/
structure MemorySample where
  workingSetBeforeMb : ℚ
  workingSetAfterMb : ℚ
  managedMemoryMb : ℚ
  postCollectWorkingSetMb : ℚ
  deriving DecidableEq

/-- The memory detail object of the error response and notification. -/
structure MemoryDetails where
  managedMemoryMb : ℚ
  workingSetMb : ℚ
  workingSetDeltaMb : ℚ
  budgetMb : ℚ
  deriving DecidableEq

/-- What the end of HandleFormat emits. -/
inductive FormatEmit where
  | errorResponse (errorCode : Str) (details : MemoryDetails)
  | fatalNotification (errorCode : Str) (details : MemoryDetails)
  | okResponse (workingSetDeltaMb : ℚ)
  deriving DecidableEq

/-- The memory-guard phase of HandleFormat: compare the sampled working set
against the budget; over budget, emit the error response and the fatal
notification, collect, and exit 86 exactly when the post-collection working
set is still above ninety percent of the budget. -/
def handleFormatMemoryPhase (env : Option ℚ) (m : MemorySample) :
    List FormatEmit × Option Nat :=
  let workingSetDeltaMb := max 0 (m.workingSetAfterMb - m.workingSetBeforeMb)
  let memoryBudgetMb := GetMemoryBudgetMb env
  if m.workingSetAfterMb > memoryBudgetMb then
    let details : MemoryDetails :=
      { managedMemoryMb := round2even m.managedMemoryMb
        workingSetMb := round2even m.workingSetAfterMb
        workingSetDeltaMb := round2even workingSetDeltaMb
        budgetMb := round2even memoryBudgetMb }
    ([.errorResponse "MEMORY_BUDGET_EXCEEDED".toList details,
      .fatalNotification "MEMORY_BUDGET_EXCEEDED".toList details],
      if m.postCollectWorkingSetMb > memoryBudgetMb * (9 / 10) then some 86 else none)
  else
    ([.okResponse workingSetDeltaMb], none)

/-- TryGetInt32: an integral JSON number in 32-bit range. -/
def tryGetInt32 (j : Json) : Option Int :=
  match j with
  | .num i => if -2147483648 ≤ i ∧ i ≤ 2147483647 then some i else none
  | _ => none

/-- The raw `range.start`/`range.end` integers of the payload, if present and
well-typed (no bounds validation yet). -/
def rangeFields (payload : Option Json) : Option (Int × Int) :=
  match payload with
  | some (.obj m) =>
    match objGetFirst m "range".toList with
    | some (.obj rm) =>
      match objGetFirst rm "start".toList, objGetFirst rm "end".toList with
      | some sEl, some eEl =>
        match tryGetInt32 sEl, tryGetInt32 eEl with
        | some s, some e => some (s, e)
        | _, _ => none
      | _, _ => none
    | _ => none
  | _ => none

/-- The range HandleFormat passes to the formatter: the payload range exactly
when `start ≥ 0`, `end > start` and `end ≤ |content|`; otherwise whole-document
formatting (`none`). -/
def rangeOfPayload (payload : Option Json) (contentLen : Nat) : Option (Int × Int) :=
  match payload with
  | some (.obj m) =>
    match objGetFirst m "range".toList with
    | some (.obj rm) =>
      match objGetFirst rm "start".toList, objGetFirst rm "end".toList with
      | some sEl, some eEl =>
        match tryGetInt32 sEl, tryGetInt32 eEl with
        | some s, some e =>
          if s ≥ 0 ∧ e > s ∧ e ≤ (contentLen : Int) then some (s, e) else none
        | _, _ => none
      | _, _ => none
    | _ => none
  | _ => none

end DixieHost

namespace EchoHost

/-- String.Replace("\r\n", "\n"): leftmost, non-overlapping pair replacement. -/
def replaceCrLfWithLf : Str → Str
  | [] => []
  | [c] => [c]
  | c :: c2 :: rest =>
    if c = CR then
      (if c2 = LF then LF :: replaceCrLfWithLf rest
       else c :: replaceCrLfWithLf (c2 :: rest))
    else c :: replaceCrLfWithLf (c2 :: rest)

/-- String.Replace of the char overload: every remaining `\r` becomes `\n`. -/
def replaceCr (s : Str) : Str := s.map (fun c => if c = CR then LF else c)

/-- String.Replace("\n", "\r\n") on a carriage-return-free string. -/
def replaceLfWithCrLf (s : Str) : Str := s.flatMap (fun c => if c = LF then [CR, LF] else [c])

/-- NormalizeLineEndings: collapse all endings to `\n`, then expand to `\r\n`
when crlf was requested. -/
def NormalizeLineEndings (text : Str) (endOfLine : Str) : Str :=
  let normalized := replaceCr (replaceCrLfWithLf text)
  if endOfLine = "crlf".toList then replaceLfWithCrLf normalized else normalized

/-- EnsureTrailingNewline of the echo host (one-argument form): appends a bare
`\n` when the text does not already end in one. -/
def EnsureTrailingNewline (text : Str) : Str :=
  if text = [] then [LF]
  else if [LF].isSuffixOf text then text
  else if [CR].isSuffixOf text then text ++ [LF]
  else text ++ [LF]

/-- The text pipeline of the echo host's HandleFormat. -/
def handleFormatText (content : Str) (endOfLine : Str) : Str :=
  EnsureTrailingNewline (NormalizeLineEndings content endOfLine)

/-- Every line break in the string is a two-character `\r\n`: no bare `\n`,
no bare `\r`. -/
def wellCrlf : Str → Bool
  | [] => true
  | c :: rest =>
    if c = LF then false
    else if c = CR then
      (match rest with
       | c2 :: r2 => if c2 = LF then wellCrlf r2 else false
       | [] => false)
    else wellCrlf rest

end EchoHost

namespace HostClient

/-- One format call of `HostClient.format`, with the outcome of each
`sendFormatRequest` attempt supplied as an oracle (the attempt bodies spawn
workers and block on shared memory; only their success or failure reaches the
retry loop).  `Except.error` carries the thrown message. -/
def formatLoop (attempts : Nat → Except Str Str) : Nat → Nat → Except Str Str
  | _, 0 => .error []
  | i, remaining + 1 =>
    match attempts i with
    | .ok v => .ok v
    | .error e => if remaining = 0 then .error e else formatLoop attempts (i + 1) remaining

instance {ε α : Type} [DecidableEq ε] [DecidableEq α] : DecidableEq (Except ε α) := fun x y =>
  match x, y with
  | .ok a, .ok b =>
    if h : a = b then isTrue (by rw [h]) else isFalse (fun he => h (Except.ok.inj he))
  | .error a, .error b =>
    if h : a = b then isTrue (by rw [h]) else isFalse (fun he => h (Except.error.inj he))
  | .ok _, .error _ => isFalse (fun he => Except.noConfusion he)
  | .error _, .ok _ => isFalse (fun he => Except.noConfusion he)

/-- Result of a format call: the returned/raised value, the `warned` flag
afterwards, and whether the fallback warning was logged during this call. -/
structure FormatResult where
  result : Except Str Str
  warnedAfter : Bool
  fallbackWarned : Bool
  deriving DecidableEq

/-- `HostClient.handleFailure`: strict mode rethrows; otherwise the original
source is returned and a single warning is logged per client instance. -/
def handleFailure (strict : Bool) (warned : Bool) (source : Str) (cause : Str) : FormatResult :=
  if strict then { result := .error cause, warnedAfter := warned, fallbackWarned := false }
  else if warned = false then
    { result := .ok source, warnedAfter := true, fallbackWarned := true }
  else
    { result := .ok source, warnedAfter := true, fallbackWarned := false }

/-- `HostClient.format`: retry up to `max 1 restartAttempts` times, then
delegate terminal failure to `handleFailure`. -/
def format (strict : Bool) (warned : Bool) (restartAttempts : Nat)
    (attempts : Nat → Except Str Str) (source : Str) : FormatResult :=
  match formatLoop attempts 0 (max 1 restartAttempts) with
  | .ok v => { result := .ok v, warnedAfter := warned, fallbackWarned := false }
  | .error e => handleFailure strict warned source e

end HostClient

namespace HostWorker

/-- A pending request registered in `HostProcess.pending`. -/
structure PendingEntry where
  requestId : Str
  command : Str
  deriving DecidableEq

/-- The child-process state the notification handling touches. -/
structure HostProcessState where
  pending : List PendingEntry
  deriving DecidableEq

/-- The `WorkerHostClient` fields notification handling touches. -/
structure WorkerState where
  host : Option HostProcessState
  isInitialized : Bool
  deriving DecidableEq

/-- Observable effects of notification handling. -/
inductive WorkerEvent where
  | rejected (requestId : Str) (message : Str)
  | logged (level : Str) (message : Str)
  deriving DecidableEq

/-- `HostProcess.rejectAll`: reject every pending request with the error. -/
def rejectAll (p : HostProcessState) (message : Str) : List WorkerEvent :=
  p.pending.map (fun e => .rejected e.requestId message)

/-- JavaScript truthiness of a JSON value (for the `details ?` check). -/
def jsTruthy : Json → Bool
  | .null => false
  | .bool b => b
  | .num n => n ≠ 0
  | .str s => s ≠ []
  | _ => true

/-- The message composed for an error notification. -/
def composedErrorMessage (errorCode : Option Str) (message : Str) (details : Option Json) : Str :=
  "[nika host] ".toList ++
    (match errorCode with | some c => c ++ ": ".toList | none => []) ++
    message ++
    (match details with
     | some d => if jsTruthy d then ' ' :: renderJson d else []
     | none => [])

/-- The parsed form of `errorNotificationPayloadSchema`. -/
structure ErrorNotification where
  severity : Option Str
  errorCode : Option Str
  message : Str
  details : Option Json
  deriving DecidableEq

/-- zod safeParse of the error-notification payload. -/
def parseErrorNotification (payload : Option Json) : Option ErrorNotification :=
  match payload with
  | some (.obj m) =>
    match (match Ipc.jsGet m "severity".toList with
      | none => some none
      | some (.str s) =>
        if s = "fatal".toList ∨ s = "recoverable".toList then some (some s) else none
      | some _ => none) with
    | none => none
    | some sev =>
      match (match Ipc.jsGet m "errorCode".toList with
        | none => some none
        | some (.str s) => some (some s)
        | some _ => none) with
      | none => none
      | some code =>
        match Ipc.jsGet m "message".toList with
        | some (.str msg) =>
          some { severity := sev, errorCode := code, message := msg
                 details := Ipc.jsGet m "details".toList }
        | _ => none
  | _ => none

/-- `WorkerHostClient.handleNotification` restricted to `error` envelopes
(the `log` branch only forwards to the logger): a fatal severity rejects all
in-flight requests with the composed message, then invalidates the host
(`host := null`, `isInitialized := false`, fresh session). -/
def handleNotification (st : WorkerState) (envelope : Ipc.MessageEnvelope) :
    WorkerState × List WorkerEvent :=
  if envelope.command = .error then
    match parseErrorNotification envelope.payload with
    | none => (st, [.logged "warn".toList "[worker] Received malformed error notification.".toList])
    | some p =>
      let severity := p.severity.getD "recoverable".toList
      let composed := composedErrorMessage p.errorCode p.message p.details
      let logEvent : WorkerEvent :=
        .logged (if severity = "fatal".toList then "error".toList else "warn".toList) composed
      if severity = "fatal".toList then
        let rejections := match st.host with | some h => rejectAll h composed | none => []
        ({ host := none, isInitialized := false }, logEvent :: rejections)
      else (st, [logEvent])
  else (st, [])

/-- What the next `ensureHost` does for a given state: a `null` host is
constructed (and its `start` spawns the child), and `initialize` is sent
exactly when the client is not marked initialized. -/
structure EnsureHostPlan where
  constructsHost : Bool
  sendsInitRequest : Bool
  deriving DecidableEq

/-- Projection of `ensureHost`'s two branch conditions. -/
def ensureHostPlan (st : WorkerState) : EnsureHostPlan :=
  { constructsHost := st.host.isNone, sendsInitRequest := st.isInitialized = false }

/-- `normalizeRange` of the worker: clamp into the document, `null` for an
empty clamped range or one covering the whole document.  Range ends are
integers (Math.trunc on an integral JavaScript number is the identity). -/
def normalizeRange (range : Option (Int × Int)) (sourceLength : Nat) : Option (Int × Int) :=
  match range with
  | none => none
  | some (s0, e0) =>
    let start := max 0 s0
    let stop := min (sourceLength : Int) (max start e0)
    if stop ≤ start ∨ (start = 0 ∧ stop ≥ (sourceLength : Int)) then none
    else some (start, stop)

/-- UTF-8 bytes of one character (TextEncoder). -/
def utf8EncodeChar (c : Char) : List Nat :=
  let n := c.toNat
  if n < 128 then [n]
  else if n < 2048 then [192 + n / 64, 128 + n % 64]
  else if n < 65536 then [224 + n / 4096, 128 + (n / 64) % 64, 128 + n % 64]
  else [240 + n / 262144, 128 + (n / 4096) % 64, 128 + (n / 64) % 64, 128 + n % 64]

/-- UTF-8 bytes of a string (TextEncoder.encode). -/
def utf8Encode (s : Str) : List Nat := s.flatMap utf8EncodeChar

/-- The fixed replacement payload used when a response exceeds the buffer. -/
def overflowFallbackJson : Json :=
  .obj (.cons "status".toList (.str "error".toList)
    (.cons "message".toList (.str "Host response exceeded buffer capacity.".toList) .nil))

/-- The observable effect of `writeResponse` on the shared buffer: the bytes
stored into the payload region, then the length slot, then the status slot. -/
structure WriteResult where
  bytesWritten : List Nat
  storedLength : Nat
  storedStatus : Nat
  deriving DecidableEq

/-- `writeResponse`: serialise the payload; if it fits, write it and store its
length and the given status; otherwise write the (possibly truncated)
fallback error payload with status 2. -/
def writeResponse (capacity : Nat) (statusCode : Nat) (payload : Json) : WriteResult :=
  let encoded := utf8Encode (renderJson payload)
  if encoded.length > capacity then
    let fallback := utf8Encode (renderJson overflowFallbackJson)
    let len := min fallback.length capacity
    { bytesWritten := fallback.take len, storedLength := len, storedStatus := 2 }
  else
    { bytesWritten := encoded, storedLength := encoded.length, storedStatus := statusCode }

end HostWorker

/-- A header block whose Content-Length is missing, unparseable, or
negative. -/
def DixieHost.badContentLength (headers : List (Str × Str)) : Prop :=
  match DixieHost.dictGet headers "Content-Length".toList with
  | none => True
  | some v =>
    match DixieHost.tryParseInt v with
    | none => True
    | some i => i < 0

/-! ## Theorems -/

theorem utf8Len_ge_one (c : Char) : 1 ≤ utf8Len c := by
  unfold utf8Len; split <;> try omega
  split <;> try omega
  split <;> omega

theorem utf8Len_eq_one_iff (c : Char) : utf8Len c = 1 ↔ asciiChar c = true := by
  unfold utf8Len asciiChar
  split
  · simp_all
  · rename_i hbig
    constructor
    · intro h
      split at h <;> simp_all
      split at h <;> simp_all
    · intro h
      simp only [decide_eq_true_eq] at h
      omega

/-- A string is pure ASCII exactly when its UTF-8 byte length equals its length. -/
theorem utf8ByteLength_eq_length_iff (s : Str) :
    utf8ByteLength s = s.length ↔ ∀ c ∈ s, asciiChar c = true := by
  induction s with
  | nil => simp [utf8ByteLength]
  | cons c rest ih =>
    unfold utf8ByteLength at *
    simp only [List.map_cons, List.sum_cons, List.length_cons, List.mem_cons]
    constructor
    · intro h
      have h1 := utf8Len_ge_one c
      have hrest : (rest.map utf8Len).sum ≥ rest.length := by
        clear h ih
        induction rest with
        | nil => simp
        | cons d ds ihd =>
          simp only [List.map_cons, List.sum_cons, List.length_cons]
          have := utf8Len_ge_one d
          omega
      have hc1 : utf8Len c = 1 := by omega
      have hsum : (rest.map utf8Len).sum = rest.length := by omega
      intro x hx
      rcases hx with rfl | hx
      · exact (utf8Len_eq_one_iff x).mp hc1
      · exact (ih.mp hsum) x hx
    · intro h
      have hc : utf8Len c = 1 := (utf8Len_eq_one_iff c).mpr (h c (Or.inl rfl))
      have hrest : (rest.map utf8Len).sum = rest.length :=
        ih.mpr (fun x hx => h x (Or.inr hx))
      omega

theorem indexOfSub_go_spec (pat : Str) :
    ∀ (s : Str) (i : Nat),
      (∀ j, indexOfSub.go pat s i = some j →
        i ≤ j ∧ pat <+: s.drop (j - i) ∧ ∀ k, i ≤ k → k < j → ¬ pat <+: s.drop (k - i)) ∧
      (indexOfSub.go pat s i = none → ∀ k, i ≤ k → ¬ pat <+: s.drop (k - i)) := by
  intro s
  induction s with
  | nil =>
    intro i
    constructor
    · intro j h
      unfold indexOfSub.go at h
      split at h
      · rename_i hp
        cases h
        refine ⟨le_refl _, ?_, ?_⟩
        · simpa using (List.isPrefixOf_iff_prefix.mp hp)
        · intro k hk1 hk2; omega
      · simp at h
    · intro h k hk
      unfold indexOfSub.go at h
      split at h
      · simp at h
      · rename_i hp
        simp only [List.drop_nil]
        intro hc
        exact hp (List.isPrefixOf_iff_prefix.mpr (by simpa using hc))
  | cons c rest ih =>
    intro i
    constructor
    · intro j h
      unfold indexOfSub.go at h
      split at h
      · rename_i hp
        cases h
        refine ⟨le_refl _, ?_, ?_⟩
        · simpa using (List.isPrefixOf_iff_prefix.mp hp)
        · intro k hk1 hk2; omega
      · rename_i hp
        have spec := (ih (i + 1)).1 j h
        refine ⟨by omega, ?_, ?_⟩
        · have hj : i + 1 ≤ j := spec.1
          have := spec.2.1
          have hdrop : (c :: rest).drop (j - i) = rest.drop (j - (i + 1)) := by
            have : j - i = (j - (i + 1)) + 1 := by omega
            simp [this]
          rw [hdrop]; exact this
        · intro k hk1 hk2
          rcases Nat.eq_or_lt_of_le hk1 with rfl | hlt
          · simp only [Nat.sub_self, List.drop_zero]
            intro hc
            exact hp (List.isPrefixOf_iff_prefix.mpr (by simpa using hc))
          · have := spec.2.2 k (by omega) hk2
            have hdrop : (c :: rest).drop (k - i) = rest.drop (k - (i + 1)) := by
              have : k - i = (k - (i + 1)) + 1 := by omega
              simp [this]
            rw [hdrop]; exact this
    · intro h k hk
      unfold indexOfSub.go at h
      split at h
      · simp at h
      · rename_i hp
        rcases Nat.eq_or_lt_of_le hk with rfl | hlt
        · simp only [Nat.sub_self, List.drop_zero]
          intro hc
          exact hp (List.isPrefixOf_iff_prefix.mpr (by simpa using hc))
        · have := (ih (i + 1)).2 h k (by omega)
          have hdrop : (c :: rest).drop (k - i) = rest.drop (k - (i + 1)) := by
            have : k - i = (k - (i + 1)) + 1 := by omega
            simp [this]
          rw [hdrop]; exact this

/-- Correctness of `indexOfSub`: it returns exactly the least occurrence index. -/
theorem indexOfSub_some_iff (hay pat : Str) (i : Nat) :
    indexOfSub hay pat = some i ↔
      (occursAt hay pat i ∧ ∀ j < i, ¬ occursAt hay pat j) := by
  unfold indexOfSub occursAt
  constructor
  · intro h
    have spec := (indexOfSub_go_spec pat hay 0).1 i h
    refine ⟨by simpa using spec.2.1, ?_⟩
    intro j hj
    have := spec.2.2 j (by omega) hj
    simpa using this
  · rintro ⟨hocc, hleast⟩
    cases hfind : indexOfSub.go pat hay 0 with
    | none =>
      exfalso
      have := (indexOfSub_go_spec pat hay 0).2 hfind i (by omega)
      simp only [Nat.sub_zero] at this
      exact this hocc
    | some j =>
      have spec := (indexOfSub_go_spec pat hay 0).1 j hfind
      have hocc' : pat <+: hay.drop j := by simpa using spec.2.1
      have hji : ¬ j < i := fun hlt => hleast j hlt hocc'
      have hij : ¬ i < j := by
        intro hlt
        have := spec.2.2 i (by omega) hlt
        simp only [Nat.sub_zero] at this
        exact this hocc
      have : i = j := by omega
      simp [this]

theorem indexOfSub_none_iff (hay pat : Str) :
    indexOfSub hay pat = none ↔ ∀ j, ¬ occursAt hay pat j := by
  unfold indexOfSub occursAt
  constructor
  · intro h j
    by_cases hj : j ≤ hay.length
    · have := (indexOfSub_go_spec pat hay 0).2 h j (by omega)
      simpa using this
    · intro hc
      have hlen := hc.length_le
      simp only [List.length_drop] at hlen
      rcases hc with ⟨t, ht⟩
      have : hay.drop j = [] := by
        apply List.drop_eq_nil_of_le; omega
      rw [this] at ht
      have : pat = [] ∧ t = [] := by
        constructor
        · cases pat with
          | nil => rfl
          | cons a b => simp at ht
        · cases t with
          | nil => rfl
          | cons a b => cases pat <;> simp at ht
      -- pattern "TODO"-like callers always use nonempty patterns, but the
      -- lemma must hold in general: empty pattern occurs at every offset.
      rcases this with ⟨rfl, rfl⟩
      cases hfind : indexOfSub.go [] hay 0 with
      | none =>
        have := (indexOfSub_go_spec [] hay 0).2 hfind 0 (by omega)
        simp at this
      | some k => rw [hfind] at h; simp at h
  · intro h
    cases hfind : indexOfSub.go pat hay 0 with
    | none => rfl
    | some j =>
      exfalso
      have spec := (indexOfSub_go_spec pat hay 0).1 j hfind
      exact h j (by simpa using spec.2.1)

theorem digitsFuel_eq (fuel n : Nat) (h : n ≤ fuel) :
    digitsFuel fuel n = Nat.digits 10 n := by
  induction fuel generalizing n with
  | zero =>
    have : n = 0 := by omega
    subst this
    simp [digitsFuel]
  | succ m ih =>
    rcases n with _ | k
    · simp [digitsFuel]
    rw [digitsFuel]
    rw [Nat.digits_def' (by omega : 1 < 10) (by omega : 0 < k + 1)]
    rw [ih ((k + 1) / 10) (by omega)]

theorem renderNatDigits_eq (n : Nat) :
    renderNatDigits n =
      if n = 0 then [digitChar10 0] else ((Nat.digits 10 n).reverse).map digitChar10 := by
  unfold renderNatDigits
  by_cases h : n = 0
  · rw [if_pos h, if_pos h]
  · rw [if_neg h, if_neg h, digitsFuel_eq n n (Nat.le_refl n)]

theorem toNat_ofNat_lt (n : Nat) (h : n < 55296) : (Char.ofNat n).toNat = n := by
  have hv : n.isValidChar := Or.inl (by omega)
  simp only [Char.ofNat, hv, dite_true, Char.ofNatAux, Char.toNat]
  rfl

theorem char_ne_of_toNat_ne {c d : Char} (h : c.toNat ≠ d.toNat) : c ≠ d := by
  intro he; exact h (congrArg Char.toNat he)

theorem digitChar10_toNat {d : Nat} (h : d < 10) : (digitChar10 d).toNat = 48 + d := by
  unfold digitChar10; exact toNat_ofNat_lt _ (by omega)

theorem isDigitChar_digitChar10 {d : Nat} (h : d < 10) : isDigitChar (digitChar10 d) = true := by
  unfold isDigitChar
  rw [digitChar10_toNat h]
  simp; omega

theorem renderNatDigits_digits (n : Nat) : ∀ c ∈ renderNatDigits n, isDigitChar c = true := by
  rw [renderNatDigits_eq]
  split
  · intro c hc
    simp only [List.mem_singleton] at hc
    subst hc
    exact isDigitChar_digitChar10 (by omega)
  · intro c hc
    simp only [List.mem_map, List.mem_reverse] at hc
    obtain ⟨d, hd, rfl⟩ := hc
    exact isDigitChar_digitChar10 (Nat.digits_lt_base (by omega) hd)

theorem renderNatDigits_ne_nil (n : Nat) : renderNatDigits n ≠ [] := by
  rw [renderNatDigits_eq]
  split
  · simp
  · rename_i h
    have hne : Nat.digits 10 n ≠ [] := Nat.digits_ne_nil_iff_ne_zero.mpr h
    simp [hne]

theorem spanDigits_append (ds rest : Str) (hds : ∀ c ∈ ds, isDigitChar c = true)
    (hrest : ∀ c, rest.head? = some c → isDigitChar c = false) :
    spanDigits (ds ++ rest) = (ds, rest) := by
  induction ds with
  | nil =>
    cases rest with
    | nil => rfl
    | cons c r =>
      have := hrest c rfl
      simp [spanDigits, this]
  | cons c ds ih =>
    have hc := hds c (by simp)
    simp only [List.cons_append, spanDigits, hc, if_true]
    have := ih (fun x hx => hds x (by simp [hx]))
    rw [show ds.append rest = ds ++ rest from rfl, this]

theorem foldl_digitChar10 (l : List Nat) (hl : ∀ d ∈ l, d < 10) (a : Nat) :
    List.foldl (fun x c => x * 10 + (c.toNat - 48)) a (l.map digitChar10) =
      List.foldl (fun x d => x * 10 + d) a l := by
  induction l generalizing a with
  | nil => rfl
  | cons d ds ih =>
    simp only [List.map_cons, List.foldl_cons]
    rw [digitChar10_toNat (hl d (by simp))]
    have : 48 + d - 48 = d := by omega
    rw [this]
    exact ih (fun x hx => hl x (by simp [hx])) _

theorem foldl_reverse_ofDigits (l : List Nat) (a : Nat) :
    List.foldl (fun x d => x * 10 + d) a l.reverse = a * 10 ^ l.length + Nat.ofDigits 10 l := by
  induction l generalizing a with
  | nil => simp
  | cons d ds ih =>
    simp only [List.reverse_cons, List.foldl_append, List.foldl_cons, List.foldl_nil,
      Nat.ofDigits_cons, List.length_cons]
    rw [ih]
    ring

theorem digitsVal_renderNatDigits (n : Nat) : digitsVal (renderNatDigits n) = n := by
  unfold digitsVal
  rw [renderNatDigits_eq]
  split
  · rename_i h
    subst h
    simp [digitChar10_toNat (by omega : (0 : Nat) < 10)]
  · rw [foldl_digitChar10 _ (fun d hd => Nat.digits_lt_base (by omega) (by simpa using hd)),
      foldl_reverse_ofDigits]
    simp [Nat.ofDigits_digits]

theorem renderNatDigits_head_ne_zero {n : Nat} (h : n ≠ 0) :
    ∀ c, (renderNatDigits n).head? = some c → c ≠ digitChar10 0 := by
  rw [renderNatDigits_eq]
  simp only [h, if_false]
  intro c hc
  have hne : Nat.digits 10 n ≠ [] := Nat.digits_ne_nil_iff_ne_zero.mpr h
  rcases hrev : (Nat.digits 10 n).reverse with _ | ⟨d, ds⟩
  · exfalso
    apply hne
    have := congrArg List.reverse hrev
    simpa using this
  · rw [hrev] at hc
    simp only [List.map_cons, List.head?_cons, Option.some_inj] at hc
    subst hc
    have hdmem : d ∈ Nat.digits 10 n := by
      have : d ∈ (Nat.digits 10 n).reverse := by rw [hrev]; simp
      simpa using this
    have hdlt : d < 10 := Nat.digits_lt_base (by omega) hdmem
    have hdlast : d = (Nat.digits 10 n).getLast hne := by
      rw [List.getLast_eq_head_reverse]
      have haux : ∀ (l : List ℕ) (hl : l ≠ []), l = d :: ds → l.head hl = d := by
        intro l hl he; subst he; rfl
      exact (haux _ _ hrev).symm
    have hdnz : d ≠ 0 := by
      rw [hdlast]
      exact Nat.getLast_digit_ne_zero 10 h
    intro he
    have := congrArg Char.toNat he
    rw [digitChar10_toNat hdlt, digitChar10_toNat (by omega)] at this
    omega

theorem hexVal_hexChar {v : Nat} (h : v < 16) : hexVal (hexChar v) = some v := by
  unfold hexVal hexChar
  by_cases h10 : v < 10
  · rw [if_pos h10, toNat_ofNat_lt _ (by omega)]
    rw [if_pos (by omega)]
    congr 1
    omega
  · rw [if_neg h10, toNat_ofNat_lt _ (by omega)]
    rw [if_neg (by omega), if_pos (by omega)]
    congr 1
    omega

theorem psb_plain (c : Char) (t : Str) (h1 : ¬ c = DQ) (h2 : ¬ c = BSL)
    (h3 : ¬ c.toNat < 32) :
    parseStringBody (c :: t) = (parseStringBody t).map (fun p => (c :: p.1, p.2)) := by
  rw [parseStringBody.eq_def]
  dsimp only
  rw [if_neg h1, if_neg h2, if_neg h3]

theorem psb_dq (t : Str) : parseStringBody (DQ :: t) = some ([], t) := by
  rw [parseStringBody.eq_def]
  dsimp only
  rw [if_pos rfl]

theorem psb_esc_dq (t : Str) :
    parseStringBody (BSL :: DQ :: t) = (parseStringBody t).map (fun p => (DQ :: p.1, p.2)) := by
  rw [parseStringBody.eq_def]
  dsimp only
  rw [if_neg (by decide : ¬ (BSL = DQ)), if_pos rfl, if_pos rfl]

theorem psb_esc_bsl (t : Str) :
    parseStringBody (BSL :: BSL :: t) = (parseStringBody t).map (fun p => (BSL :: p.1, p.2)) := by
  rw [parseStringBody.eq_def]
  dsimp only
  rw [if_neg (by decide : ¬ (BSL = DQ)), if_pos rfl,
    if_neg (by decide : ¬ (BSL = DQ)), if_pos rfl]

theorem psb_esc_n (t : Str) :
    parseStringBody (BSL :: 'n' :: t) = (parseStringBody t).map (fun p => (LF :: p.1, p.2)) := by
  rw [parseStringBody.eq_def]
  dsimp only
  rw [if_neg (by decide : ¬ (BSL = DQ)), if_pos rfl,
    if_neg (by decide : ¬ ('n' = DQ)), if_neg (by decide : ¬ ('n' = BSL)),
    if_neg (by decide : ¬ ('n' = '/')), if_pos rfl]

theorem psb_esc_r (t : Str) :
    parseStringBody (BSL :: 'r' :: t) = (parseStringBody t).map (fun p => (CR :: p.1, p.2)) := by
  rw [parseStringBody.eq_def]
  dsimp only
  rw [if_neg (by decide : ¬ (BSL = DQ)), if_pos rfl,
    if_neg (by decide : ¬ ('r' = DQ)), if_neg (by decide : ¬ ('r' = BSL)),
    if_neg (by decide : ¬ ('r' = '/')), if_neg (by decide : ¬ ('r' = 'n')), if_pos rfl]

theorem psb_esc_t (t : Str) :
    parseStringBody (BSL :: 't' :: t) = (parseStringBody t).map (fun p => (TAB :: p.1, p.2)) := by
  rw [parseStringBody.eq_def]
  dsimp only
  rw [if_neg (by decide : ¬ (BSL = DQ)), if_pos rfl,
    if_neg (by decide : ¬ ('t' = DQ)), if_neg (by decide : ¬ ('t' = BSL)),
    if_neg (by decide : ¬ ('t' = '/')), if_neg (by decide : ¬ ('t' = 'n')),
    if_neg (by decide : ¬ ('t' = 'r')), if_pos rfl]

theorem psb_esc_b (t : Str) :
    parseStringBody (BSL :: 'b' :: t) =
      (parseStringBody t).map (fun p => (Char.ofNat 8 :: p.1, p.2)) := by
  rw [parseStringBody.eq_def]
  dsimp only
  rw [if_neg (by decide : ¬ (BSL = DQ)), if_pos rfl,
    if_neg (by decide : ¬ ('b' = DQ)), if_neg (by decide : ¬ ('b' = BSL)),
    if_neg (by decide : ¬ ('b' = '/')), if_neg (by decide : ¬ ('b' = 'n')),
    if_neg (by decide : ¬ ('b' = 'r')), if_neg (by decide : ¬ ('b' = 't')), if_pos rfl]

theorem psb_esc_f (t : Str) :
    parseStringBody (BSL :: 'f' :: t) =
      (parseStringBody t).map (fun p => (Char.ofNat 12 :: p.1, p.2)) := by
  rw [parseStringBody.eq_def]
  dsimp only
  rw [if_neg (by decide : ¬ (BSL = DQ)), if_pos rfl,
    if_neg (by decide : ¬ ('f' = DQ)), if_neg (by decide : ¬ ('f' = BSL)),
    if_neg (by decide : ¬ ('f' = '/')), if_neg (by decide : ¬ ('f' = 'n')),
    if_neg (by decide : ¬ ('f' = 'r')), if_neg (by decide : ¬ ('f' = 't')),
    if_neg (by decide : ¬ ('f' = 'b')), if_pos rfl]

theorem psb_esc_u (h3c h4c : Char) (a b : Nat) (t : Str) (ha : hexVal h3c = some a)
    (hb : hexVal h4c = some b) :
    parseStringBody (BSL :: 'u' :: '0' :: '0' :: h3c :: h4c :: t) =
      (parseStringBody t).map (fun p => (Char.ofNat (a * 16 + b) :: p.1, p.2)) := by
  rw [parseStringBody.eq_def]
  dsimp only
  rw [if_neg (by decide : ¬ (BSL = DQ)), if_pos rfl,
    if_neg (by decide : ¬ ('u' = DQ)), if_neg (by decide : ¬ ('u' = BSL)),
    if_neg (by decide : ¬ ('u' = '/')), if_neg (by decide : ¬ ('u' = 'n')),
    if_neg (by decide : ¬ ('u' = 'r')), if_neg (by decide : ¬ ('u' = 't')),
    if_neg (by decide : ¬ ('u' = 'b')), if_neg (by decide : ¬ ('u' = 'f')), if_pos rfl]
  rw [show hexVal '0' = some 0 from rfl, ha, hb]
  norm_num

/-- Inverse of string escaping: parsing the escaped body up to the closing
quote recovers the original string and leaves the tail untouched. -/
theorem parseStringBody_escape (s : Str) : ∀ rest : Str,
    parseStringBody (escapeStr s ++ DQ :: rest) = some (s, rest) := by
  induction s with
  | nil =>
    intro rest
    show parseStringBody (DQ :: rest) = some ([], rest)
    exact psb_dq rest
  | cons c s ih =>
    intro rest
    have hsplit : escapeStr (c :: s) ++ DQ :: rest = escapeChar c ++ (escapeStr s ++ DQ :: rest) := by
      simp [escapeStr, List.flatMap_cons, List.append_assoc]
    rw [hsplit]
    by_cases h1 : c = DQ
    · subst h1
      rw [show escapeChar DQ = [BSL, DQ] from rfl]
      rw [show ([BSL, DQ] : Str) ++ (escapeStr s ++ DQ :: rest) =
        BSL :: DQ :: (escapeStr s ++ DQ :: rest) from rfl]
      rw [psb_esc_dq, ih rest]
      rfl
    · by_cases h2 : c = BSL
      · subst h2
        rw [show escapeChar BSL = [BSL, BSL] from rfl]
        rw [show ([BSL, BSL] : Str) ++ (escapeStr s ++ DQ :: rest) =
          BSL :: BSL :: (escapeStr s ++ DQ :: rest) from rfl]
        rw [psb_esc_bsl, ih rest]
        rfl
      · by_cases h3 : c = LF
        · subst h3
          rw [show escapeChar LF = [BSL, 'n'] from rfl]
          rw [show ([BSL, 'n'] : Str) ++ (escapeStr s ++ DQ :: rest) =
            BSL :: 'n' :: (escapeStr s ++ DQ :: rest) from rfl]
          rw [psb_esc_n, ih rest]
          rfl
        · by_cases h4 : c = CR
          · subst h4
            rw [show escapeChar CR = [BSL, 'r'] from rfl]
            rw [show ([BSL, 'r'] : Str) ++ (escapeStr s ++ DQ :: rest) =
              BSL :: 'r' :: (escapeStr s ++ DQ :: rest) from rfl]
            rw [psb_esc_r, ih rest]
            rfl
          · by_cases h5 : c = TAB
            · subst h5
              rw [show escapeChar TAB = [BSL, 't'] from rfl]
              rw [show ([BSL, 't'] : Str) ++ (escapeStr s ++ DQ :: rest) =
                BSL :: 't' :: (escapeStr s ++ DQ :: rest) from rfl]
              rw [psb_esc_t, ih rest]
              rfl
            · by_cases h6 : c = Char.ofNat 8
              · subst h6
                rw [show escapeChar (Char.ofNat 8) = [BSL, 'b'] from rfl]
                rw [show ([BSL, 'b'] : Str) ++ (escapeStr s ++ DQ :: rest) =
                  BSL :: 'b' :: (escapeStr s ++ DQ :: rest) from rfl]
                rw [psb_esc_b, ih rest]
                rfl
              · by_cases h7 : c = Char.ofNat 12
                · subst h7
                  rw [show escapeChar (Char.ofNat 12) = [BSL, 'f'] from rfl]
                  rw [show ([BSL, 'f'] : Str) ++ (escapeStr s ++ DQ :: rest) =
                    BSL :: 'f' :: (escapeStr s ++ DQ :: rest) from rfl]
                  rw [psb_esc_f, ih rest]
                  rfl
                · by_cases h8 : c.toNat < 32
                  · have hesc : escapeChar c =
                        [BSL, 'u', '0', '0', hexChar (c.toNat / 16), hexChar (c.toNat % 16)] := by
                      unfold escapeChar
                      rw [if_neg h1, if_neg h2, if_neg h3, if_neg h4, if_neg h5, if_neg h6,
                        if_neg h7, if_pos h8]
                    rw [hesc]
                    rw [show ([BSL, 'u', '0', '0', hexChar (c.toNat / 16),
                        hexChar (c.toNat % 16)] : Str) ++ (escapeStr s ++ DQ :: rest) =
                      BSL :: 'u' :: '0' :: '0' :: hexChar (c.toNat / 16) ::
                        hexChar (c.toNat % 16) :: (escapeStr s ++ DQ :: rest) from rfl]
                    rw [psb_esc_u _ _ (c.toNat / 16) (c.toNat % 16) _
                      (hexVal_hexChar (by omega)) (hexVal_hexChar (by omega))]
                    rw [ih rest]
                    have harith : c.toNat / 16 * 16 + c.toNat % 16 = c.toNat := by omega
                    rw [harith, Char.ofNat_toNat]
                    rfl
                  · have hesc : escapeChar c = [c] := by
                      unfold escapeChar
                      rw [if_neg h1, if_neg h2, if_neg h3, if_neg h4, if_neg h5, if_neg h6,
                        if_neg h7, if_neg h8]
                    rw [hesc]
                    rw [show ([c] : Str) ++ (escapeStr s ++ DQ :: rest) =
                      c :: (escapeStr s ++ DQ :: rest) from rfl]
                    rw [psb_plain c _ h1 h2 h8, ih rest]
                    rfl

theorem skipWs_not_ws {c : Char} (h : isJsonWs c = false) (t : Str) :
    skipWs (c :: t) = c :: t := by
  unfold skipWs
  rw [h]
  simp

theorem isDigitChar_toNat {c : Char} (h : isDigitChar c = true) :
    48 ≤ c.toNat ∧ c.toNat ≤ 57 := by
  unfold isDigitChar at h
  simp at h
  omega

theorem parseNatPart_spec (n : Nat) (rest : Str) (h : numTailOk rest) :
    parseNumber.parseNatPart (renderNatDigits n ++ rest) = some (n, rest) := by
  unfold parseNumber.parseNatPart
  rw [spanDigits_append _ _ (renderNatDigits_digits n)
    (fun c hc => ((h c hc).1))]
  dsimp only
  rw [if_neg (by simp [renderNatDigits_ne_nil n])]
  rw [if_neg ?hlz]
  case hlz =>
    rintro ⟨hlen, hhead⟩
    by_cases hn : n = 0
    · subst hn
      unfold renderNatDigits at hlen
      simp at hlen
    · exact renderNatDigits_head_ne_zero hn _ hhead rfl
  cases hrest : rest with
  | nil => rw [digitsVal_renderNatDigits]
  | cons c t =>
    have hc := h c (by rw [hrest]; rfl)
    dsimp only
    rw [if_neg (by
      simp only [not_or]
      exact ⟨hc.2.1, hc.2.2.1, hc.2.2.2⟩)]
    rw [digitsVal_renderNatDigits]

theorem parseNumber_renderInt (i : Int) (rest : Str) (h : numTailOk rest) :
    parseNumber (renderInt i ++ rest) = some (i, rest) := by
  by_cases hneg : i < 0
  · unfold renderInt
    rw [if_pos hneg]
    rw [show ('-' :: renderNatDigits i.natAbs : Str) ++ rest =
      '-' :: (renderNatDigits i.natAbs ++ rest) from rfl]
    rw [parseNumber.eq_def]
    split
    · rename_i r heq
      injection heq with h1 h2
      rw [h2.symm] at *
      rw [parseNatPart_spec _ _ h]
      dsimp only
      have : -((i.natAbs : Nat) : Int) = i := by omega
      rw [this]
    · rename_i hno
      exact absurd rfl (hno (renderNatDigits i.natAbs ++ rest))
  · unfold renderInt
    rw [if_neg hneg]
    rcases hd : renderNatDigits i.natAbs with _ | ⟨c0, cs⟩
    · exact absurd hd (renderNatDigits_ne_nil _)
    · have hc0 : isDigitChar c0 = true := by
        apply renderNatDigits_digits i.natAbs
        rw [hd]; simp
      have hc0n := isDigitChar_toNat hc0
      have hne : c0 ≠ '-' := char_ne_of_toNat_ne (by
        rw [show ('-').toNat = 45 from rfl]; omega)
      rw [parseNumber.eq_def]
      split
      · rename_i r heq
        exfalso
        rw [List.cons_append] at heq
        injection heq with h1 h2
        exact hne h1
      · rw [← hd]
        rw [parseNatPart_spec _ _ h]
        dsimp only
        have : ((i.natAbs : Nat) : Int) = i := by omega
        rw [this]

theorem isJsonWs_false_of_toNat {c : Char} (h1 : c.toNat ≠ 32) (h2 : c.toNat ≠ 9)
    (h3 : c.toNat ≠ 10) (h4 : c.toNat ≠ 13) : isJsonWs c = false := by
  unfold isJsonWs
  have e1 : c ≠ ' ' := char_ne_of_toNat_ne (by rw [show (' ').toNat = 32 from rfl]; omega)
  have e2 : c ≠ TAB := char_ne_of_toNat_ne (by rw [show TAB.toNat = 9 from rfl]; omega)
  have e3 : c ≠ LF := char_ne_of_toNat_ne (by rw [show LF.toNat = 10 from rfl]; omega)
  have e4 : c ≠ CR := char_ne_of_toNat_ne (by rw [show CR.toNat = 13 from rfl]; omega)
  simp [e1, e2, e3, e4]

/-- Every serialised JSON value starts with a non-whitespace character that is
not a closing bracket. -/
theorem renderJson_head (j : Json) :
    ∃ c t, renderJson j = c :: t ∧ isJsonWs c = false ∧ c ≠ ']' := by
  cases j with
  | null => exact ⟨'n', _, rfl, by decide, by decide⟩
  | bool b =>
    cases b with
    | true => exact ⟨'t', _, rfl, by decide, by decide⟩
    | false => exact ⟨'f', _, rfl, by decide, by decide⟩
  | num i =>
    show ∃ c t, renderInt i = c :: t ∧ _
    unfold renderInt
    by_cases hneg : i < 0
    · rw [if_pos hneg]
      exact ⟨'-', _, rfl, by decide, by decide⟩
    · rw [if_neg hneg]
      rcases hd : renderNatDigits i.natAbs with _ | ⟨c0, cs⟩
      · exact absurd hd (renderNatDigits_ne_nil _)
      · have hc0 : isDigitChar c0 = true := by
          apply renderNatDigits_digits i.natAbs
          rw [hd]; simp
        have hn := isDigitChar_toNat hc0
        refine ⟨c0, cs, rfl, isJsonWs_false_of_toNat (by omega) (by omega) (by omega) (by omega), ?_⟩
        exact char_ne_of_toNat_ne (by rw [show (']').toNat = 93 from rfl]; omega)
  | str s => exact ⟨DQ, _, rfl, by decide, by decide⟩
  | arr a =>
    cases a with
    | nil => exact ⟨'[', _, rfl, by decide, by decide⟩
    | cons v vs => exact ⟨'[', _, rfl, by decide, by decide⟩
  | obj m =>
    cases m with
    | nil => exact ⟨LBRACE, _, rfl, by decide, by decide⟩
    | cons k v ms => exact ⟨LBRACE, _, rfl, by decide, by decide⟩

theorem tailOk_of_numTailOk (v : Json) (t : Str) (ht : numTailOk t) : tailOk v t := by
  cases v <;> first | exact ht | trivial

theorem numTailOk_cons {c : Char} (t : Str) (h1 : isDigitChar c = false) (h2 : c ≠ '.')
    (h3 : c ≠ 'e') (h4 : c ≠ 'E') : numTailOk (c :: t) := by
  intro x hx
  simp only [List.head?_cons, Option.some_inj] at hx
  subst hx
  exact ⟨h1, h2, h3, h4⟩

theorem numTailOk_arrTail (vs : JsonArr) (rest : Str) :
    numTailOk (renderArrTail vs ++ ']' :: rest) := by
  cases vs with
  | nil =>
    show numTailOk (']' :: rest)
    exact numTailOk_cons _ (by decide) (by decide) (by decide) (by decide)
  | cons v vs =>
    show numTailOk (',' :: (renderJson v ++ renderArrTail vs) ++ ']' :: rest)
    rw [List.cons_append]
    exact numTailOk_cons _ (by decide) (by decide) (by decide) (by decide)

theorem numTailOk_objTail (ms : JsonObj) (rest : Str) :
    numTailOk (renderObjTail ms ++ RBRACE :: rest) := by
  cases ms with
  | nil =>
    show numTailOk (RBRACE :: rest)
    exact numTailOk_cons _ (by decide) (by decide) (by decide) (by decide)
  | cons k v ms =>
    show numTailOk (',' :: (renderString k ++ ':' :: renderJson v ++ renderObjTail ms) ++
      RBRACE :: rest)
    rw [List.cons_append]
    exact numTailOk_cons _ (by decide) (by decide) (by decide) (by decide)

mutual

/-- Parsing inverts rendering for any JSON value, given enough fuel and a tail
that cannot extend the final token. -/
theorem parseValue_render (j : Json) (f : Nat) (rest : Str) (hf : needV j ≤ f)
    (ht : tailOk j rest) : parseValue f (renderJson j ++ rest) = some (j, rest) := by
  cases f with
  | zero =>
    exfalso
    have hp : 1 ≤ needV j := by
      cases j with
      | arr a => cases a <;> simp [needV] <;> omega
      | obj m => cases m <;> simp [needV] <;> omega
      | _ => simp [needV]
    omega
  | succ f =>
    cases j with
    | null =>
      show parseValue (f + 1) ('n' :: 'u' :: 'l' :: 'l' :: rest) = some (Json.null, rest)
      rw [parseValue.eq_def]
      dsimp only
      rw [skipWs_not_ws (by decide)]
      dsimp only
      rw [if_neg (by decide : ¬ ('n' = DQ)), if_neg (by decide : ¬ ('n' = '[')),
        if_neg (by decide : ¬ ('n' = LBRACE)), if_pos rfl]
      rfl
    | bool b =>
      cases b with
      | true =>
        show parseValue (f + 1) ('t' :: 'r' :: 'u' :: 'e' :: rest) = some (Json.bool true, rest)
        rw [parseValue.eq_def]
        dsimp only
        rw [skipWs_not_ws (by decide)]
        dsimp only
        rw [if_neg (by decide : ¬ ('t' = DQ)), if_neg (by decide : ¬ ('t' = '[')),
          if_neg (by decide : ¬ ('t' = LBRACE)), if_neg (by decide : ¬ ('t' = 'n')),
          if_pos rfl]
        rfl
      | false =>
        show parseValue (f + 1) ('f' :: 'a' :: 'l' :: 's' :: 'e' :: rest) =
          some (Json.bool false, rest)
        rw [parseValue.eq_def]
        dsimp only
        rw [skipWs_not_ws (by decide)]
        dsimp only
        rw [if_neg (by decide : ¬ ('f' = DQ)), if_neg (by decide : ¬ ('f' = '[')),
          if_neg (by decide : ¬ ('f' = LBRACE)), if_neg (by decide : ¬ ('f' = 'n')),
          if_neg (by decide : ¬ ('f' = 't')), if_pos rfl]
        rfl
    | num i =>
      show parseValue (f + 1) (renderInt i ++ rest) = some (Json.num i, rest)
      have hnum : numTailOk rest := ht
      rcases hd : renderInt i with _ | ⟨c0, cs⟩
      · exfalso
        unfold renderInt at hd
        split at hd
        · simp at hd
        · exact renderNatDigits_ne_nil _ hd
      · have hc0 : c0 = '-' ∨ isDigitChar c0 = true := by
          unfold renderInt at hd
          split at hd
          · left
            injection hd with h1 h2
            exact h1.symm
          · right
            apply renderNatDigits_digits _ c0
            rw [hd]; simp
        have hc0n : c0.toNat = 45 ∨ (48 ≤ c0.toNat ∧ c0.toNat ≤ 57) := by
          rcases hc0 with h | h
          · left; rw [h]; rfl
          · right; exact isDigitChar_toNat h
        rw [List.cons_append, parseValue.eq_def]
        dsimp only
        rw [skipWs_not_ws (isJsonWs_false_of_toNat (by omega) (by omega) (by omega) (by omega))]
        dsimp only
        rw [if_neg (char_ne_of_toNat_ne (by rw [show DQ.toNat = 34 from rfl]; omega)),
          if_neg (char_ne_of_toNat_ne (by rw [show ('[').toNat = 91 from rfl]; omega)),
          if_neg (char_ne_of_toNat_ne (by rw [show LBRACE.toNat = 123 from rfl]; omega)),
          if_neg (char_ne_of_toNat_ne (by rw [show ('n').toNat = 110 from rfl]; omega)),
          if_neg (char_ne_of_toNat_ne (by rw [show ('t').toNat = 116 from rfl]; omega)),
          if_neg (char_ne_of_toNat_ne (by rw [show ('f').toNat = 102 from rfl]; omega)),
          if_pos hc0]
        rw [show (c0 :: (cs ++ rest) : Str) = renderInt i ++ rest from by
          rw [hd, List.cons_append]]
        rw [parseNumber_renderInt i rest hnum]
        rfl
    | str s =>
      show parseValue (f + 1) (renderString s ++ rest) = some (Json.str s, rest)
      unfold renderString
      simp only [List.cons_append, List.append_assoc, List.singleton_append, List.nil_append]
      rw [parseValue.eq_def]
      dsimp only
      rw [skipWs_not_ws (by decide)]
      dsimp only
      rw [if_pos rfl, parseStringBody_escape s rest]
      rfl
    | arr a =>
      cases a with
      | nil =>
        show parseValue (f + 1) ('[' :: ']' :: rest) = some (Json.arr .nil, rest)
        rw [parseValue.eq_def]
        dsimp only
        rw [skipWs_not_ws (by decide)]
        dsimp only
        rw [if_neg (by decide : ¬ ('[' = DQ)), if_pos rfl]
        rw [skipWs_not_ws (by decide)]
        dsimp only
        rw [if_pos rfl]
      | cons v vs =>
        show parseValue (f + 1)
          (('[' :: (renderJson v ++ renderArrTail vs ++ [']'])) ++ rest) =
          some (Json.arr (.cons v vs), rest)
        rw [List.cons_append, List.append_assoc, List.append_assoc,
          show ([']'] : Str) ++ rest = ']' :: rest from rfl]
        rw [parseValue.eq_def]
        dsimp only
        rw [skipWs_not_ws (by decide)]
        dsimp only
        rw [if_neg (by decide : ¬ ('[' = DQ)), if_pos rfl]
        obtain ⟨c2, r2, hv, hws, hbr⟩ := renderJson_head v
        rw [hv, List.cons_append, skipWs_not_ws hws]
        dsimp only
        rw [if_neg hbr]
        rw [show (c2 :: (r2 ++ (renderArrTail vs ++ ']' :: rest)) : Str) =
          renderJson v ++ (renderArrTail vs ++ ']' :: rest) from by
          rw [hv, List.cons_append]]
        have hfv : needV v ≤ f := by
          simp only [needV] at hf; omega
        have hfa : needA vs ≤ f := by
          simp only [needV] at hf; omega
        rw [parseValue_render v f _ hfv
          (tailOk_of_numTailOk v _ (numTailOk_arrTail vs rest))]
        dsimp only
        rw [parseArrRest_render vs f rest hfa]
    | obj m =>
      cases m with
      | nil =>
        show parseValue (f + 1) (LBRACE :: RBRACE :: rest) = some (Json.obj .nil, rest)
        rw [parseValue.eq_def]
        dsimp only
        rw [skipWs_not_ws (by decide)]
        dsimp only
        rw [if_neg (by decide : ¬ (LBRACE = DQ)), if_neg (by decide : ¬ (LBRACE = '[')),
          if_pos rfl]
        rw [skipWs_not_ws (by decide)]
        dsimp only
        rw [if_pos rfl]
      | cons k v ms =>
        show parseValue (f + 1)
          ((LBRACE :: (renderString k ++ ':' :: renderJson v ++ renderObjTail ms ++ [RBRACE]))
            ++ rest) = some (Json.obj (.cons k v ms), rest)
        unfold renderString
        simp only [List.cons_append, List.append_assoc, List.singleton_append, List.nil_append]
        rw [parseValue.eq_def]
        dsimp only
        rw [skipWs_not_ws (by decide)]
        dsimp only
        rw [if_neg (by decide : ¬ (LBRACE = DQ)), if_neg (by decide : ¬ (LBRACE = '[')),
          if_pos rfl]
        rw [skipWs_not_ws (by decide)]
        dsimp only
        rw [if_neg (by decide : ¬ (DQ = RBRACE)), if_pos rfl]
        rw [parseStringBody_escape k]
        dsimp only
        rw [skipWs_not_ws (by decide)]
        have hfv : needV v ≤ f := by
          simp only [needV] at hf; omega
        have hfo : needO ms ≤ f := by
          simp only [needV] at hf; omega
        split
        · rename_i r4 heq
          injection heq with h1 h2
          rw [← h2]
          rw [parseValue_render v f _ hfv
            (tailOk_of_numTailOk v _ (numTailOk_objTail ms rest))]
          dsimp only
          rw [parseObjRest_render ms f rest hfo]
        · rename_i hno
          exact absurd rfl (hno _)

/-- Parsing inverts rendering of array tails. -/
theorem parseArrRest_render (vs : JsonArr) (f : Nat) (rest : Str) (hf : needA vs ≤ f) :
    parseArrRest f (renderArrTail vs ++ ']' :: rest) = some (vs, rest) := by
  cases f with
  | zero =>
    exfalso
    have hp : 1 ≤ needA vs := by cases vs <;> simp [needA] <;> omega
    omega
  | succ f =>
    cases vs with
    | nil =>
      show parseArrRest (f + 1) (']' :: rest) = some (.nil, rest)
      rw [parseArrRest.eq_def]
      dsimp only
      rw [skipWs_not_ws (by decide)]
      dsimp only
      rw [if_pos rfl]
    | cons v vs =>
      show parseArrRest (f + 1) ((',' :: (renderJson v ++ renderArrTail vs)) ++ ']' :: rest) =
        some (.cons v vs, rest)
      rw [List.cons_append, List.append_assoc]
      rw [parseArrRest.eq_def]
      dsimp only
      rw [skipWs_not_ws (by decide)]
      dsimp only
      rw [if_neg (by decide : ¬ (',' = ']')), if_pos rfl]
      have hfv : needV v ≤ f := by
        simp only [needA] at hf; omega
      have hfa : needA vs ≤ f := by
        simp only [needA] at hf; omega
      rw [parseValue_render v f _ hfv
        (tailOk_of_numTailOk v _ (numTailOk_arrTail vs rest))]
      dsimp only
      rw [parseArrRest_render vs f rest hfa]

/-- Parsing inverts rendering of object member tails. -/
theorem parseObjRest_render (ms : JsonObj) (f : Nat) (rest : Str) (hf : needO ms ≤ f) :
    parseObjRest f (renderObjTail ms ++ RBRACE :: rest) = some (ms, rest) := by
  cases f with
  | zero =>
    exfalso
    have hp : 1 ≤ needO ms := by cases ms <;> simp [needO] <;> omega
    omega
  | succ f =>
    cases ms with
    | nil =>
      show parseObjRest (f + 1) (RBRACE :: rest) = some (.nil, rest)
      rw [parseObjRest.eq_def]
      dsimp only
      rw [skipWs_not_ws (by decide)]
      dsimp only
      rw [if_pos rfl]
    | cons k v ms =>
      show parseObjRest (f + 1)
        ((',' :: (renderString k ++ ':' :: renderJson v ++ renderObjTail ms)) ++
          RBRACE :: rest) = some (.cons k v ms, rest)
      unfold renderString
      simp only [List.cons_append, List.append_assoc, List.singleton_append, List.nil_append]
      rw [parseObjRest.eq_def]
      dsimp only
      rw [skipWs_not_ws (by decide)]
      dsimp only
      rw [if_neg (by decide : ¬ (',' = RBRACE)), if_pos rfl]
      rw [skipWs_not_ws (by decide)]
      dsimp only
      rw [if_pos rfl]
      rw [parseStringBody_escape k]
      dsimp only
      rw [skipWs_not_ws (by decide)]
      have hfv : needV v ≤ f := by
        simp only [needO] at hf; omega
      have hfo : needO ms ≤ f := by
        simp only [needO] at hf; omega
      split
      · rename_i r4 heq
        injection heq with h1 h2
        rw [← h2]
        rw [parseValue_render v f _ hfv
          (tailOk_of_numTailOk v _ (numTailOk_objTail ms rest))]
        dsimp only
        rw [parseObjRest_render ms f rest hfo]
      · rename_i hno
        exact absurd rfl (hno _)

end

mutual

/-- The fuel bound is at most the rendered length. -/
theorem needV_le_length (j : Json) : needV j ≤ (renderJson j).length := by
  cases j with
  | null => simp [needV, renderJson]
  | bool b => cases b <;> simp [needV, renderJson]
  | num i =>
    have : renderInt i ≠ [] := by
      unfold renderInt
      split
      · simp
      · exact renderNatDigits_ne_nil _
    have : 1 ≤ (renderInt i).length := by
      cases h : renderInt i with
      | nil => exact absurd h this
      | cons a b => simp
    simpa [needV, renderJson] using this
  | str s => simp [needV, renderJson, renderString]
  | arr a =>
    cases a with
    | nil => simp [needV, renderJson]
    | cons v vs =>
      have h1 := needV_le_length v
      have h2 := needA_le_length vs
      simp only [needV, renderJson, List.length_cons, List.length_append]
      simp at h2 ⊢
      omega
  | obj m =>
    cases m with
    | nil => simp [needV, renderJson]
    | cons k v ms =>
      have h1 := needV_le_length v
      have h2 := needO_le_length ms
      simp only [needV, renderJson, List.length_cons, List.length_append]
      simp at h2 ⊢
      omega

/-- Fuel bound for array tails is at most the rendered length plus one. -/
theorem needA_le_length (vs : JsonArr) : needA vs ≤ (renderArrTail vs).length + 1 := by
  cases vs with
  | nil => simp [needA, renderArrTail]
  | cons v vs =>
    have h1 := needV_le_length v
    have h2 := needA_le_length vs
    simp only [needA, renderArrTail, List.length_cons, List.length_append]
    omega

/-- Fuel bound for object tails is at most the rendered length plus one. -/
theorem needO_le_length (ms : JsonObj) : needO ms ≤ (renderObjTail ms).length + 1 := by
  cases ms with
  | nil => simp [needO, renderObjTail]
  | cons k v ms =>
    have h1 := needV_le_length v
    have h2 := needO_le_length ms
    simp only [needO, renderObjTail, List.length_cons, List.length_append]
    omega

end

theorem numTailOk_nil : numTailOk [] := by
  intro c hc
  simp at hc

/-- Whole-input parsing inverts serialisation on every JSON value. -/
theorem parseJson_render (j : Json) : parseJson (renderJson j) = some j := by
  unfold parseJson
  have h := parseValue_render j ((renderJson j).length + 1) []
    (by have := needV_le_length j; omega)
    (tailOk_of_numTailOk j [] numTailOk_nil)
  rw [List.append_nil] at h
  rw [h]
  rfl

namespace Ipc

theorem indexOfSub_terminator (a b : Str) (ha : CR ∉ a) :
    indexOfSub (a ++ ([CR, LF, CR, LF] ++ b)) [CR, LF, CR, LF] = some a.length := by
  rw [indexOfSub_some_iff]
  constructor
  · unfold occursAt
    rw [List.drop_left]
    exact List.prefix_append _ _
  · intro j hj hocc
    rcases hocc with ⟨t, ht⟩
    have hjle : j ≤ a.length := by omega
    rw [List.drop_append_of_le_length hjle] at ht
    have hne : a.drop j ≠ [] := by
      simp only [ne_eq, List.drop_eq_nil_iff]
      omega
    rcases hd0 : a.drop j with _ | ⟨c0, cs0⟩
    · exact hne hd0
    · rw [hd0] at ht
      rw [show (c0 :: cs0 : Str) ++ ([CR, LF, CR, LF] ++ b) =
        c0 :: (cs0 ++ ([CR, LF, CR, LF] ++ b)) from rfl] at ht
      have hc0 : CR = c0 := by
        have := ht
        injection this with h1 h2
      apply ha
      have : c0 ∈ a.drop j := by rw [hd0]; simp
      rw [← hc0] at this
      exact List.drop_subset _ _ this

theorem indexOfSub_crlf_none (a : Str) (ha : CR ∉ a) : indexOfSub a [CR, LF] = none := by
  rw [indexOfSub_none_iff]
  intro j hocc
  rcases hocc with ⟨t, ht⟩
  apply ha
  have : CR ∈ a.drop j := by
    rw [← ht]
    simp
  exact List.drop_subset _ _ this

theorem splitOnSub_no_sep (s sep : Str) (h : indexOfSub s sep = none) :
    splitOnSub s sep = [s] := by
  unfold splitOnSub
  rw [show s.length + 1 = Nat.succ s.length from rfl]
  rw [splitOnSub.go.eq_def]
  dsimp only
  rw [h]

theorem splitOnChar_no_sep (sep : Char) (b : Str) (hb : sep ∉ b) :
    splitOnChar sep b = [b] := by
  induction b with
  | nil => rfl
  | cons c r ih =>
    have hc : ¬ c = sep := by
      intro he; exact hb (by rw [he]; simp)
    unfold splitOnChar
    rw [if_neg hc]
    rw [ih (fun hm => hb (by simp [hm]))]

theorem splitOnChar_single (sep : Char) (a b : Str) (ha : sep ∉ a) (hb : sep ∉ b) :
    splitOnChar sep (a ++ sep :: b) = [a, b] := by
  induction a with
  | nil =>
    show splitOnChar sep (sep :: b) = [[], b]
    unfold splitOnChar
    rw [if_pos rfl, splitOnChar_no_sep sep b hb]
  | cons c a ih =>
    have hc : ¬ c = sep := by
      intro he; exact ha (by rw [he]; simp)
    show splitOnChar sep (c :: (a ++ sep :: b)) = [c :: a, b]
    unfold splitOnChar
    rw [if_neg hc]
    rw [ih (fun hm => ha (by simp [hm]))]

theorem dropWhile_eq_self_of_not (p : Char → Bool) (s : Str)
    (h : ∀ c ∈ s, p c = false) : s.dropWhile p = s := by
  cases s with
  | nil => rfl
  | cons c r =>
    rw [List.dropWhile_cons]
    rw [h c (by simp)]
    simp

theorem jsTrim_space_digits (d : Str) (hd : ∀ c ∈ d, isJsonWs c = false) :
    jsTrim (' ' :: d) = d := by
  unfold jsTrim
  rw [show ((' ' :: d : Str).dropWhile isJsonWs) = d.dropWhile isJsonWs from by
    rw [List.dropWhile_cons]
    simp [isJsonWs]]
  rw [dropWhile_eq_self_of_not _ _ hd]
  rw [dropWhile_eq_self_of_not _ _ (fun c hc => hd c (by simpa using hc))]
  simp

theorem jsParseInt_digits (n : Nat) : jsParseInt (renderNatDigits n) = some ((n : Nat) : Int) := by
  unfold jsParseInt
  rcases hdg : renderNatDigits n with _ | ⟨c0, cs⟩
  · exact absurd hdg (renderNatDigits_ne_nil n)
  · have hall : ∀ c ∈ renderNatDigits n, isDigitChar c = true := renderNatDigits_digits n
    have hc0 : isDigitChar c0 = true := by
      apply hall; rw [hdg]; simp
    have hc0n := isDigitChar_toNat hc0
    rw [← hdg]
    rw [dropWhile_eq_self_of_not _ _ (fun c hc =>
      isJsonWs_false_of_toNat
        (by have := isDigitChar_toNat (hall c hc); omega)
        (by have := isDigitChar_toNat (hall c hc); omega)
        (by have := isDigitChar_toNat (hall c hc); omega)
        (by have := isDigitChar_toNat (hall c hc); omega))]
    rw [hdg]
    dsimp only
    split
    · rename_i r heq
      exfalso
      injection heq with h1 h2
      have : c0.toNat = 45 := by rw [h1]; rfl
      omega
    · rename_i r heq
      exfalso
      injection heq with h1 h2
      have : c0.toNat = 43 := by rw [h1]; rfl
      omega
    · unfold digitsPrefixVal
      rw [← hdg]
      rw [show renderNatDigits n = renderNatDigits n ++ [] from (List.append_nil _).symm]
      rw [spanDigits_append _ _ (renderNatDigits_digits n) (by intro c hc; simp at hc)]
      dsimp only
      rw [if_neg (by simp [renderNatDigits_ne_nil n])]
      rw [digitsVal_renderNatDigits]
      simp

theorem envelopeOfJson_requestJson (e : RequestEnvelope) :
    envelopeOfJson (requestJson e) = some (toMessageEnvelope e) := by
  obtain ⟨v, rid, cmd, p⟩ := e
  cases cmd <;> rfl

theorem parseEnvelopes_go_nil (f : Nat) : parseEnvelopes.go f [] = .ok [] := by
  cases f with
  | zero => rfl
  | succ f => rfl

/-- Shape of an encoded frame: ASCII header, terminator, JSON body. -/
theorem encodeMessage_shape (e : RequestEnvelope) :
    encodeMessage e =
      ("Content-Length: ".toList ++ renderNatDigits (utf8ByteLength (renderJson (requestJson e))))
        ++ ([CR, LF, CR, LF] ++ renderJson (requestJson e)) := by
  unfold encodeMessage
  simp [List.append_assoc]

set_option maxHeartbeats 2000000 in
/-- Round-trip of the framing codec on a single request envelope whose JSON
serialisation is pure ASCII. -/
theorem parseEnvelopes_encodeMessage (e : RequestEnvelope)
    (hascii : ∀ c ∈ renderJson (requestJson e), asciiChar c = true) :
    parseEnvelopes (encodeMessage e) = .ok [toMessageEnvelope e] := by
  rw [encodeMessage_shape]
  have hlen : utf8ByteLength (renderJson (requestJson e)) = (renderJson (requestJson e)).length :=
    (utf8ByteLength_eq_length_iff _).mpr hascii
  set json := renderJson (requestJson e) with hjson
  set n := utf8ByteLength json with hn
  set digits := renderNatDigits n with hdigits
  have hdigall : ∀ c ∈ digits, isDigitChar c = true := renderNatDigits_digits n
  clear_value json n digits
  have hCRa : CR ∉ ("Content-Length: ".toList ++ digits : Str) := by
    simp only [List.mem_append, not_or]
    constructor
    · decide
    · intro hm
      have h1 := isDigitChar_toNat (hdigall CR hm)
      have h2 : CR.toNat = 13 := rfl
      omega
  unfold parseEnvelopes
  rw [show (((("Content-Length: ".toList ++ digits)) ++ ([CR, LF, CR, LF] ++ json)).length + 1) =
    Nat.succ (((("Content-Length: ".toList ++ digits)) ++ ([CR, LF, CR, LF] ++ json)).length)
    from rfl]
  rw [parseEnvelopes.go.eq_def]
  dsimp only
  rw [if_neg (by simp)]
  rw [indexOfSub_terminator _ _ hCRa]
  dsimp only
  rw [List.take_left]
  rw [splitOnSub_no_sep _ _ (indexOfSub_crlf_none _ hCRa)]
  rw [show (List.find?
      (fun line => "content-length".toList.isPrefixOf (toLowerStr line))
      [("Content-Length: ".toList ++ digits)]) =
    some ("Content-Length: ".toList ++ digits) from by
    rw [List.find?_cons]
    rw [show ("content-length".toList.isPrefixOf
        (toLowerStr ("Content-Length: ".toList ++ digits))) = true from by
      rw [List.isPrefixOf_iff_prefix]
      unfold toLowerStr
      rw [List.map_append]
      apply @List.IsPrefix.trans _ _ ("Content-Length: ".toList.map Char.toLower) _
      · decide
      · exact List.prefix_append _ _]]
  rw [show ("Content-Length: ".toList ++ digits : Str) =
    "Content-Length".toList ++ ':' :: (' ' :: digits) from by
    rw [show ("Content-Length: ".toList : Str) =
      "Content-Length".toList ++ [':', ' '] from by decide]
    simp]
  dsimp only
  rw [splitOnChar_single ':' _ _ (by decide) (by
    simp only [List.mem_cons, not_or]
    refine ⟨by decide, ?_⟩
    intro hm
    have h1 := isDigitChar_toNat (hdigall ':' hm)
    have h2 : (':').toNat = 58 := rfl
    omega)]
  rw [show (([("Content-Length".toList : Str), ' ' :: digits]).get? 1) =
    some (' ' :: digits) from rfl]
  rw [show (Option.getD (some (' ' :: digits)) [] : Str) = ' ' :: digits from rfl]
  rw [jsTrim_space_digits _ (fun c hc =>
    isJsonWs_false_of_toNat
      (by have := isDigitChar_toNat (hdigall c hc); omega)
      (by have := isDigitChar_toNat (hdigall c hc); omega)
      (by have := isDigitChar_toNat (hdigall c hc); omega)
      (by have := isDigitChar_toNat (hdigall c hc); omega))]
  rw [hdigits, jsParseInt_digits n]
  dsimp only
  rw [if_neg (by omega)]
  have hntn : ((n : Nat) : Int).toNat = n := Int.toNat_natCast n
  have hlens : ((("Content-Length".toList ++ ':' :: (' ' :: renderNatDigits n))) ++
      ([CR, LF, CR, LF] ++ json)).length =
      ("Content-Length".toList ++ ':' :: (' ' :: renderNatDigits n)).length + 4 + json.length := by
    simp only [List.length_append, List.length_cons, List.length_nil]
    omega
  rw [if_neg (by
    rw [hntn, hlens]
    have : n = json.length := hlen
    omega)]
  rw [show ((("Content-Length".toList ++ ':' :: (' ' :: renderNatDigits n))) ++
      ([CR, LF, CR, LF] ++ json) : Str).drop
      (("Content-Length".toList ++ ':' :: (' ' :: renderNatDigits n)).length + 4) =
    json from by
    rw [show ("Content-Length".toList ++ ':' :: (' ' :: renderNatDigits n)).length + 4 =
      (("Content-Length".toList ++ ':' :: (' ' :: renderNatDigits n)) ++
        [CR, LF, CR, LF]).length from by simp]
    rw [← List.append_assoc]
    exact List.drop_left _ _]
  rw [show ((json : Str).take ((n : Nat) : Int).toNat) = json from by
    rw [hntn]
    rw [hlen]
    exact List.take_length json]
  rw [show parseJson json = some (requestJson e) from by
    rw [hjson]; exact parseJson_render _]
  dsimp only
  rw [envelopeOfJson_requestJson]
  rw [show ((("Content-Length".toList ++ ':' :: (' ' :: renderNatDigits n))) ++
      ([CR, LF, CR, LF] ++ json) : Str).drop
      (("Content-Length".toList ++ ':' :: (' ' :: renderNatDigits n)).length + 4 +
        ((n : Nat) : Int).toNat) =
    [] from by
    apply List.drop_eq_nil_of_le
    rw [hntn, hlens]
    have : n = json.length := hlen
    omega]
  rw [show skipCrLf [] = [] from rfl]
  rw [parseEnvelopes_go_nil]

end Ipc

/-- C1 counterexample: the host emits a diagnostic only for the FIRST
occurrence of "TODO" (content "// TODO TODO" has an occurrence at offset 8
with no diagnostic), and on the spec example the span is [15, 19), not
[14, 18). -/
theorem C1_counterexample :
    DixieHost.todoDiagnostics "class Foo \x7b // TODO fix \x7d".toList =
      [DixieHost.mkTodoDiag 15] ∧
    ({ severity := "warning".toList, message := DixieHost.todoMessage,
       start := 14, endPos := 18 } : DixieHost.Diagnostic) ∉
      DixieHost.todoDiagnostics "class Foo \x7b // TODO fix \x7d".toList ∧
    (DixieHost.todoDiagnostics "// TODO TODO".toList).length = 1 ∧
    occursAt "// TODO TODO".toList "TODO".toList 8 ∧
    DixieHost.mkTodoDiag 8 ∉ DixieHost.todoDiagnostics "// TODO TODO".toList := by
  refine ⟨by decide, by decide, by decide, by decide, by decide⟩

/-- C1 (amended): the host appends exactly one synthetic warning diagnostic,
for the first occurrence of "TODO" in the request content, with message
"TODO comment detected." and span [i, i+4); no diagnostic when there is no
occurrence.  The spec example yields start 15, end 19. -/
theorem C1_todo_first_occurrence (content : Str) (i : Nat) :
    (DixieHost.todoDiagnostics content = [DixieHost.mkTodoDiag i] ↔
      (occursAt content "TODO".toList i ∧ ∀ j < i, ¬ occursAt content "TODO".toList j)) ∧
    (DixieHost.todoDiagnostics content = [] ↔ ∀ j, ¬ occursAt content "TODO".toList j) := by
  constructor
  · constructor
    · intro h
      unfold DixieHost.todoDiagnostics at h
      rcases hidx : indexOfSub content "TODO".toList with _ | i0
      · rw [hidx] at h; simp at h
      · rw [hidx] at h
        simp only [List.cons.injEq, and_true] at h
        have hii : i0 = i := by
          have := congrArg DixieHost.Diagnostic.start h
          simpa [DixieHost.mkTodoDiag] using this
        subst hii
        exact (indexOfSub_some_iff content "TODO".toList i0).mp hidx
    · intro h
      have := (indexOfSub_some_iff content "TODO".toList i).mpr h
      unfold DixieHost.todoDiagnostics
      rw [this]
  · constructor
    · intro h
      unfold DixieHost.todoDiagnostics at h
      rcases hidx : indexOfSub content "TODO".toList with _ | i0
      · exact (indexOfSub_none_iff content "TODO".toList).mp hidx
      · rw [hidx] at h; simp at h
    · intro h
      have := (indexOfSub_none_iff content "TODO".toList).mpr h
      unfold DixieHost.todoDiagnostics
      rw [this]

/-- C1 witness: on the spec example input, the first occurrence of "TODO" is
at offset 15 and the emitted diagnostic list is exactly that one warning. -/
theorem C1_witness :
    DixieHost.todoDiagnostics "class Foo \x7b // TODO fix \x7d".toList =
      [DixieHost.mkTodoDiag 15] :=
  (C1_todo_first_occurrence "class Foo \x7b // TODO fix \x7d".toList 15).1.mpr
    ⟨by decide, by decide⟩

/-- C2 counterexample: the echo host's crlf pipeline on mixed line endings
appends a bare line feed, so the output neither consists solely of `\r\n`
newlines nor ends with `\r\n`; and the Roslyn host's EnsureTrailingNewline
keeps duplicate trailing terminators, so "exactly one" fails as well. -/
theorem C2_counterexample :
    EchoHost.handleFormatText "a\r\nb".toList "crlf".toList = "a\r\nb\n".toList ∧
    EchoHost.wellCrlf ("a\r\nb\n".toList) = false ∧
    ([CR, LF].isSuffixOf (EchoHost.handleFormatText "a\r\nb".toList "crlf".toList)) = false ∧
    DixieHost.EnsureTrailingNewline "x\r\n\r\n".toList [CR, LF] = "x\r\n\r\n".toList := by
  refine ⟨by decide, by decide, by decide, by decide⟩

theorem EchoHost.replaceCr_no_cr (s : Str) : CR ∉ EchoHost.replaceCr s := by
  intro hmem
  rcases List.mem_map.mp hmem with ⟨c, _, hc⟩
  by_cases h : c = CR
  · rw [if_pos h] at hc; exact absurd hc (by decide)
  · rw [if_neg h] at hc; exact h (hc.symm ▸ rfl)

theorem EchoHost.wellCrlf_crlf_cons (x : Str) :
    EchoHost.wellCrlf (CR :: LF :: x) = EchoHost.wellCrlf x := by
  rw [EchoHost.wellCrlf.eq_def]
  dsimp only
  rw [if_neg (by decide : ¬ (CR = LF)), if_pos rfl, if_pos rfl]

theorem EchoHost.wellCrlf_cons (c : Char) (x : Str) (h1 : ¬ c = LF) (h2 : ¬ c = CR) :
    EchoHost.wellCrlf (c :: x) = EchoHost.wellCrlf x := by
  rw [EchoHost.wellCrlf.eq_def]
  dsimp only
  rw [if_neg h1, if_neg h2]

theorem EchoHost.wellCrlf_replaceLf (s : Str) (h : CR ∉ s) :
    EchoHost.wellCrlf (EchoHost.replaceLfWithCrLf s) = true := by
  induction s with
  | nil => decide
  | cons c rest ih =>
    have hc : ¬ c = CR := fun hh => h (hh ▸ List.mem_cons_self c rest)
    have hrest : CR ∉ rest := fun hh => h (List.mem_cons_of_mem c hh)
    show EchoHost.wellCrlf
      (List.flatMap (c :: rest) (fun c => if c = LF then [CR, LF] else [c])) = true
    rw [List.flatMap_cons]
    by_cases hl : c = LF
    · rw [if_pos hl]
      rw [show ([CR, LF] : Str) ++ _ = CR :: LF :: EchoHost.replaceLfWithCrLf rest from rfl]
      rw [EchoHost.wellCrlf_crlf_cons]
      exact ih hrest
    · rw [if_neg hl]
      rw [show ([c] : Str) ++ _ = c :: EchoHost.replaceLfWithCrLf rest from rfl]
      rw [EchoHost.wellCrlf_cons c _ hl hc]
      exact ih hrest

theorem DixieHost.ensureTrailingNewline_crlf_suffix (t : Str) :
    ([CR, LF].isSuffixOf (DixieHost.EnsureTrailingNewline t [CR, LF])) = true := by
  unfold DixieHost.EnsureTrailingNewline
  by_cases h0 : t = []
  · rw [if_pos h0]; decide
  rw [if_neg h0]
  by_cases h1 : ([CR, LF].isSuffixOf t) = true
  · rw [if_pos h1]; exact h1
  rw [if_neg h1, if_pos rfl]
  by_cases h2 : ([CR].isSuffixOf t) = true
  · rw [if_pos h2]
    rcases List.isSuffixOf_iff_suffix.mp h2 with ⟨u, hu⟩
    rw [List.isSuffixOf_iff_suffix, ← hu, List.append_assoc]
    exact List.suffix_append u [CR, LF]
  · rw [if_neg h2]
    rw [List.isSuffixOf_iff_suffix]
    exact List.suffix_append t [CR, LF]

/-- C2 (amended): under endOfLine "crlf" the echo host's NormalizeLineEndings
output has every line break as a two-character `\r\n`; the full HandleFormat
pipeline then guarantees only a trailing bare `\n` (EnsureTrailingNewline
appends `"\n"` regardless of endOfLine), and it leaves already-terminated text
unchanged rather than collapsing repeated terminators.  The Roslyn host's
two-argument EnsureTrailingNewline, by contrast, does end its output with
`\r\n` when that terminator is requested. -/
theorem C2_crlf_normalization (content : Str) :
    EchoHost.wellCrlf (EchoHost.NormalizeLineEndings content "crlf".toList) = true ∧
    ([LF].isSuffixOf (EchoHost.handleFormatText content "crlf".toList)) = true ∧
    (([LF].isSuffixOf (EchoHost.NormalizeLineEndings content "crlf".toList)) = true →
      EchoHost.handleFormatText content "crlf".toList =
        EchoHost.NormalizeLineEndings content "crlf".toList) ∧
    (∀ t : Str, ([CR, LF].isSuffixOf (DixieHost.EnsureTrailingNewline t [CR, LF])) = true) := by
  refine ⟨?_, ?_, ?_, DixieHost.ensureTrailingNewline_crlf_suffix⟩
  · unfold EchoHost.NormalizeLineEndings
    rw [if_pos rfl]
    exact EchoHost.wellCrlf_replaceLf _ (EchoHost.replaceCr_no_cr _)
  · unfold EchoHost.handleFormatText EchoHost.EnsureTrailingNewline
    set s := EchoHost.NormalizeLineEndings content "crlf".toList with hs
    clear_value s
    by_cases h0 : s = []
    · rw [if_pos h0]; decide
    rw [if_neg h0]
    by_cases h1 : ([LF].isSuffixOf s) = true
    · rw [if_pos h1]; exact h1
    rw [if_neg h1]
    by_cases h2 : ([CR].isSuffixOf s) = true
    · rw [if_pos h2, List.isSuffixOf_iff_suffix]
      exact List.suffix_append s [LF]
    · rw [if_neg h2, List.isSuffixOf_iff_suffix]
      exact List.suffix_append s [LF]
  · intro h
    unfold EchoHost.handleFormatText EchoHost.EnsureTrailingNewline
    set s := EchoHost.NormalizeLineEndings content "crlf".toList with hs
    clear_value s
    have h0 : ¬ s = [] := by
      intro hnil
      rw [hnil] at h
      exact absurd h (by decide)
    rw [if_neg h0, if_pos h]

/-- C3: when the sampled working set exceeds the budget (default 512,
positive override from the environment), HandleFormat emits the
MEMORY_BUDGET_EXCEEDED error response and the fatal notification carrying
the detail fields, then exits with code 86 exactly when the post-collection
working set still exceeds 0.9 times the budget; under budget it emits the ok
response and keeps serving. -/
theorem C3_memory_guard (env : Option ℚ) (m : DixieHost.MemorySample)
    (hover : m.workingSetAfterMb > DixieHost.GetMemoryBudgetMb env) :
    (DixieHost.handleFormatMemoryPhase env m).1 =
      [.errorResponse "MEMORY_BUDGET_EXCEEDED".toList
         { managedMemoryMb := DixieHost.round2even m.managedMemoryMb
           workingSetMb := DixieHost.round2even m.workingSetAfterMb
           workingSetDeltaMb :=
             DixieHost.round2even (max 0 (m.workingSetAfterMb - m.workingSetBeforeMb))
           budgetMb := DixieHost.round2even (DixieHost.GetMemoryBudgetMb env) },
       .fatalNotification "MEMORY_BUDGET_EXCEEDED".toList
         { managedMemoryMb := DixieHost.round2even m.managedMemoryMb
           workingSetMb := DixieHost.round2even m.workingSetAfterMb
           workingSetDeltaMb :=
             DixieHost.round2even (max 0 (m.workingSetAfterMb - m.workingSetBeforeMb))
           budgetMb := DixieHost.round2even (DixieHost.GetMemoryBudgetMb env) }] ∧
    ((DixieHost.handleFormatMemoryPhase env m).2 = some 86 ↔
      m.postCollectWorkingSetMb > DixieHost.GetMemoryBudgetMb env * (9 / 10)) ∧
    DixieHost.GetMemoryBudgetMb none = 512 ∧
    (∀ q : ℚ, 0 < q → DixieHost.GetMemoryBudgetMb (some q) = q) ∧
    (∀ m2 : DixieHost.MemorySample,
      ¬ m2.workingSetAfterMb > DixieHost.GetMemoryBudgetMb env →
      (DixieHost.handleFormatMemoryPhase env m2).2 = none ∧
      (DixieHost.handleFormatMemoryPhase env m2).1 =
        [.okResponse (max 0 (m2.workingSetAfterMb - m2.workingSetBeforeMb))]) := by
  refine ⟨?_, ?_, rfl, ?_, ?_⟩
  · unfold DixieHost.handleFormatMemoryPhase
    dsimp only
    rw [if_pos hover]
  · unfold DixieHost.handleFormatMemoryPhase
    dsimp only
    rw [if_pos hover]
    by_cases hpc :
        m.postCollectWorkingSetMb > DixieHost.GetMemoryBudgetMb env * (9 / 10)
    · rw [if_pos hpc]; simpa using hpc
    · rw [if_neg hpc]; simpa using hpc
  · intro q hq
    simp [DixieHost.GetMemoryBudgetMb, hq]
  · intro m2 h2
    unfold DixieHost.handleFormatMemoryPhase
    dsimp only
    rw [if_neg h2]
    exact ⟨rfl, rfl⟩

/-- C3 witness: with no budget override the budget is 512; a 600 MB working
set trips the guard, and a 500 MB post-collection working set (above
0.9 · 512 = 460.8) forces exit code 86. -/
theorem C3_witness :
    (⟨100, 600, 50, 500⟩ : DixieHost.MemorySample).workingSetAfterMb >
      DixieHost.GetMemoryBudgetMb none ∧
    (DixieHost.handleFormatMemoryPhase none ⟨100, 600, 50, 500⟩).2 = some 86 :=
  ⟨by norm_num [DixieHost.GetMemoryBudgetMb],
   (C3_memory_guard none ⟨100, 600, 50, 500⟩
     (by norm_num [DixieHost.GetMemoryBudgetMb])).2.1.mpr
     (by norm_num [DixieHost.GetMemoryBudgetMb])⟩

/-- C9: writeResponse never exceeds the payload region: it writes at most
`capacity` bytes, stores a length equal to the number of bytes written and
bounded by the capacity, and stores a non-zero status (the given ok/error
code when the payload fits, 2 on overflow); when even the fallback message
overflows a tiny capacity, the fallback is truncated to exactly fit. -/
theorem C9_writeResponse_bounds (capacity statusCode : Nat) (payload : Json)
    (hstatus : statusCode = 1 ∨ statusCode = 2) :
    (HostWorker.writeResponse capacity statusCode payload).bytesWritten.length ≤ capacity ∧
    (HostWorker.writeResponse capacity statusCode payload).storedLength =
      (HostWorker.writeResponse capacity statusCode payload).bytesWritten.length ∧
    (HostWorker.writeResponse capacity statusCode payload).storedLength ≤ capacity ∧
    (HostWorker.writeResponse capacity statusCode payload).storedStatus ≠ 0 ∧
    ((HostWorker.utf8Encode (renderJson payload)).length > capacity →
      (HostWorker.writeResponse capacity statusCode payload).storedStatus = 2 ∧
      (HostWorker.writeResponse capacity statusCode payload).bytesWritten =
        (HostWorker.utf8Encode (renderJson HostWorker.overflowFallbackJson)).take
          (min (HostWorker.utf8Encode (renderJson HostWorker.overflowFallbackJson)).length
            capacity)) := by
  unfold HostWorker.writeResponse
  dsimp only
  by_cases hover : (HostWorker.utf8Encode (renderJson payload)).length > capacity
  · rw [if_pos hover]
    dsimp only
    refine ⟨?_, ?_, ?_, by decide, fun _ => ⟨rfl, rfl⟩⟩
    · rw [List.length_take]
      omega
    · rw [List.length_take]
      omega
    · omega
  · rw [if_neg hover]
    dsimp only
    refine ⟨by omega, rfl, by omega, ?_, fun hc => absurd hc hover⟩
    rcases hstatus with h | h <;> simp [h]

/-- C9 witness: a ten-character string payload against a five-byte capacity
overflows; the stored length equals the bytes written and stays within the
capacity, and the stored status is the overflow code 2. -/
theorem C9_witness :
    ((2 : Nat) = 1 ∨ (2 : Nat) = 2) ∧
    (HostWorker.writeResponse 5 2 (.str "0123456789".toList)).bytesWritten.length ≤ 5 ∧
    (HostWorker.writeResponse 5 2 (.str "0123456789".toList)).storedStatus ≠ 0 :=
  ⟨Or.inr rfl,
   (C9_writeResponse_bounds 5 2 (.str "0123456789".toList) (Or.inr rfl)).1,
   (C9_writeResponse_bounds 5 2 (.str "0123456789".toList) (Or.inr rfl)).2.2.2.1⟩

theorem HostClient.formatLoop_all_fail (attempts : Nat → Except Str Str) (errs : Nat → Str) :
    ∀ (n i : Nat), 1 ≤ n → (∀ j, j < n → attempts (i + j) = .error (errs (i + j))) →
    HostClient.formatLoop attempts i n = .error (errs (i + n - 1)) := by
  intro n
  induction n with
  | zero => intro i h; omega
  | succ m ih =>
    intro i _ hall
    rw [HostClient.formatLoop.eq_def]
    dsimp only
    have h0 := hall 0 (by omega)
    rw [Nat.add_zero] at h0
    rw [h0]
    dsimp only
    by_cases hm : m = 0
    · subst hm
      rw [show i + (0 + 1) - 1 = i from by omega, if_pos rfl]
    · rw [if_neg hm]
      have hrec := ih (i + 1) (by omega) (fun j hj => by
        have := hall (j + 1) (by omega)
        rwa [show i + (j + 1) = i + 1 + j by omega] at this)
      rw [hrec, show i + 1 + m - 1 = i + (m + 1) - 1 from by omega]

/-- C5: when every attempt of the retry loop fails, non-strict mode returns
exactly the original source, sets the per-instance warned flag, and logs the
fallback warning exactly when it had not warned before (so at most once per
instance); strict mode raises the last attempt's error instead. -/
theorem C5_client_fallback (strict warned : Bool) (restartAttempts : Nat)
    (attempts : Nat → Except Str Str) (errs : Nat → Str) (source : Str)
    (hfail : ∀ j, j < max 1 restartAttempts → attempts j = .error (errs j)) :
    (strict = false →
      (HostClient.format strict warned restartAttempts attempts source).result =
        .ok source ∧
      (HostClient.format strict warned restartAttempts attempts source).warnedAfter = true ∧
      ((HostClient.format strict warned restartAttempts attempts source).fallbackWarned =
          true ↔ warned = false)) ∧
    (strict = true →
      (HostClient.format strict warned restartAttempts attempts source).result =
        .error (errs (max 1 restartAttempts - 1))) := by
  have hl : HostClient.formatLoop attempts 0 (max 1 restartAttempts) =
      .error (errs (0 + max 1 restartAttempts - 1)) :=
    HostClient.formatLoop_all_fail attempts errs (max 1 restartAttempts) 0
      (by omega) (fun j hj => by simpa using hfail j (by omega))
  rw [Nat.zero_add] at hl
  unfold HostClient.format
  rw [hl]
  dsimp only
  constructor
  · intro hs
    subst hs
    cases warned <;> simp [HostClient.handleFailure]
  · intro hs
    subst hs
    simp [HostClient.handleFailure]

/-- C5 witness: two configured retries all failing with "boom"; without
strict mode the call returns the source text "src" unchanged. -/
theorem C5_witness :
    (∀ j, j < max 1 2 →
      (fun _ : Nat => (Except.error "boom".toList : Except Str Str)) j =
        .error ((fun _ : Nat => "boom".toList) j)) ∧
    (HostClient.format false false 2 (fun _ => .error "boom".toList)
      "src".toList).result = .ok "src".toList :=
  ⟨fun j _ => rfl,
   ((C5_client_fallback false false 2 (fun _ => .error "boom".toList)
      (fun _ => "boom".toList) "src".toList (fun j _ => rfl)).1 rfl).1⟩

/-- C7: an error notification with severity "fatal" rejects every pending
request with the composed notification message, logs it at error level, and
clears the host and initialization flag, so the next ensureHost constructs a
fresh child and sends it a new initialize request. -/
theorem C7_fatal_notification (st : HostWorker.WorkerState)
    (envelope : Ipc.MessageEnvelope) (p : HostWorker.ErrorNotification)
    (hcmd : envelope.command = .error)
    (hparse : HostWorker.parseErrorNotification envelope.payload = some p)
    (hsev : p.severity = some "fatal".toList) :
    (HostWorker.handleNotification st envelope).1 =
      { host := none, isInitialized := false } ∧
    (HostWorker.handleNotification st envelope).2 =
      .logged "error".toList
          (HostWorker.composedErrorMessage p.errorCode p.message p.details) ::
        (match st.host with
         | some h =>
           HostWorker.rejectAll h
             (HostWorker.composedErrorMessage p.errorCode p.message p.details)
         | none => []) ∧
    (∀ (h : HostWorker.HostProcessState) (entry : HostWorker.PendingEntry),
      st.host = some h → entry ∈ h.pending →
      HostWorker.WorkerEvent.rejected entry.requestId
          (HostWorker.composedErrorMessage p.errorCode p.message p.details) ∈
        (HostWorker.handleNotification st envelope).2) ∧
    HostWorker.ensureHostPlan (HostWorker.handleNotification st envelope).1 =
      { constructsHost := true, sendsInitRequest := true } := by
  have hstep : HostWorker.handleNotification st envelope =
      ({ host := none, isInitialized := false },
        .logged "error".toList
            (HostWorker.composedErrorMessage p.errorCode p.message p.details) ::
          (match st.host with
           | some h =>
             HostWorker.rejectAll h
               (HostWorker.composedErrorMessage p.errorCode p.message p.details)
           | none => [])) := by
    unfold HostWorker.handleNotification
    rw [if_pos hcmd, hparse]
    dsimp only
    rw [hsev]
    dsimp only [Option.getD]
    rw [if_pos rfl, if_pos rfl]
  refine ⟨by rw [hstep], by rw [hstep], ?_, by rw [hstep]; rfl⟩
  intro h entry hh hmem
  rw [hstep, hh]
  dsimp only
  exact List.mem_cons_of_mem _ (List.mem_map.mpr ⟨entry, hmem, rfl⟩)

/-- C7 witness: a fatal error notification "dead" against a worker with one
pending request clears the host and initialization flag. -/
theorem C7_witness :
    HostWorker.parseErrorNotification
        (some (Json.obj (.cons "severity".toList (.str "fatal".toList)
          (.cons "message".toList (.str "dead".toList) .nil)))) =
      some ⟨some "fatal".toList, none, "dead".toList, none⟩ ∧
    (HostWorker.handleNotification
        ⟨some ⟨[⟨"7".toList, "format".toList⟩]⟩, true⟩
        ⟨1, .notification, none, .error,
          some (Json.obj (.cons "severity".toList (.str "fatal".toList)
            (.cons "message".toList (.str "dead".toList) .nil)))⟩).1 =
      { host := none, isInitialized := false } :=
  ⟨by decide,
   (C7_fatal_notification
      ⟨some ⟨[⟨"7".toList, "format".toList⟩]⟩, true⟩
      ⟨1, .notification, none, .error,
        some (Json.obj (.cons "severity".toList (.str "fatal".toList)
          (.cons "message".toList (.str "dead".toList) .nil)))⟩
      ⟨some "fatal".toList, none, "dead".toList, none⟩
      rfl (by decide) rfl).1⟩

/-- C8: the host formats the supplied range exactly when it satisfies
0 ≤ start, end > start and end ≤ |content| (any violation, or no range,
formats the whole document), and the worker's normalizeRange returns either
null or a clamped range with 0 ≤ start < end ≤ |text|, returning null exactly
when the clamped range is empty or covers the whole document. -/
theorem C8_range_acceptance :
    (∀ (payload : Option Json) (contentLen : Nat) (s e : Int),
      DixieHost.rangeOfPayload payload contentLen = some (s, e) ↔
        (DixieHost.rangeFields payload = some (s, e) ∧
          0 ≤ s ∧ s < e ∧ e ≤ (contentLen : Int))) ∧
    (∀ (r : Option (Int × Int)) (len : Nat) (s e : Int),
      HostWorker.normalizeRange r len = some (s, e) →
        0 ≤ s ∧ s < e ∧ e ≤ (len : Int)) ∧
    (∀ (s0 e0 : Int) (len : Nat),
      HostWorker.normalizeRange (some (s0, e0)) len = none ↔
        (min (len : Int) (max (max 0 s0) e0) ≤ max 0 s0 ∨
          (max 0 s0 = 0 ∧ min (len : Int) (max (max 0 s0) e0) = (len : Int)))) := by
  refine ⟨?_, ?_, ?_⟩
  · intro payload contentLen s e
    unfold DixieHost.rangeOfPayload DixieHost.rangeFields
    rcases payload with _ | j
    · simp
    cases j with
    | null => simp
    | bool b => simp
    | num n => simp
    | str s1 => simp
    | arr a => simp
    | obj m =>
      dsimp only
      rcases h1 : DixieHost.objGetFirst m ("range".toList) with _ | rj
      · simp
      cases rj with
      | null => simp
      | bool b => simp
      | num n => simp
      | str s1 => simp
      | arr a => simp
      | obj rm =>
        dsimp only
        rcases h2 : DixieHost.objGetFirst rm ("start".toList) with _ | sEl
        · simp
        rcases h3 : DixieHost.objGetFirst rm ("end".toList) with _ | eEl
        · simp
        dsimp only
        rcases h4 : DixieHost.tryGetInt32 sEl with _ | s1
        · simp
        rcases h5 : DixieHost.tryGetInt32 eEl with _ | e1
        · simp
        dsimp only
        by_cases hc : s1 ≥ 0 ∧ e1 > s1 ∧ e1 ≤ (contentLen : Int)
        · rw [if_pos hc]
          obtain ⟨hc1, hc2, hc3⟩ := hc
          constructor
          · intro h
            rw [Option.some.injEq, Prod.mk.injEq] at h
            obtain ⟨hs, he⟩ := h
            subst hs; subst he
            exact ⟨rfl, by omega, by omega, by omega⟩
          · rintro ⟨heq, _⟩
            exact heq
        · rw [if_neg hc]
          constructor
          · intro h
            exact Option.noConfusion h
          · rintro ⟨heq, hA, hB, hC⟩
            rw [Option.some.injEq, Prod.mk.injEq] at heq
            obtain ⟨hs, he⟩ := heq
            exact absurd ⟨by omega, by omega, by omega⟩ hc
  · intro r len s e h
    rcases r with _ | ⟨s0, e0⟩
    · exact Option.noConfusion h
    unfold HostWorker.normalizeRange at h
    dsimp only at h
    by_cases hc : min (len : Int) (max (max 0 s0) e0) ≤ max 0 s0 ∨
        (max 0 s0 = 0 ∧ min (len : Int) (max (max 0 s0) e0) ≥ (len : Int))
    · rw [if_pos hc] at h
      exact Option.noConfusion h
    · rw [if_neg hc] at h
      rw [Option.some.injEq, Prod.mk.injEq] at h
      obtain ⟨hs, he⟩ := h
      omega
  · intro s0 e0 len
    unfold HostWorker.normalizeRange
    dsimp only
    by_cases hc : min (len : Int) (max (max 0 s0) e0) ≤ max 0 s0 ∨
        (max 0 s0 = 0 ∧ min (len : Int) (max (max 0 s0) e0) ≥ (len : Int))
    · rw [if_pos hc]
      exact ⟨fun _ => by omega, fun _ => rfl⟩
    · rw [if_neg hc]
      constructor
      · intro h
        exact Option.noConfusion h
      · intro hr
        exact absurd (by omega) hc

/-- C8 witness: a payload range [1, 3) over ten characters is accepted
verbatim; a clamped range [0, 10) over a ten-character document is the whole
document and normalizes to null. -/
theorem C8_witness :
    DixieHost.rangeOfPayload
      (some (Json.obj (.cons "range".toList
        (.obj (.cons "start".toList (.num 1) (.cons "end".toList (.num 3) .nil)))
        .nil))) 10 = some (1, 3) ∧
    HostWorker.normalizeRange (some (0, 20)) 10 = none :=
  ⟨(C8_range_acceptance.1
      (some (Json.obj (.cons "range".toList
        (.obj (.cons "start".toList (.num 1) (.cons "end".toList (.num 3) .nil)))
        .nil))) 10 1 3).mpr ⟨by decide, by decide, by decide, by decide⟩,
   (C8_range_acceptance.2.2 0 20 10).mpr (by decide)⟩

/-- C6 counterexample: an envelope whose payload contains U+00E9 is encoded
with a UTF-8 byte count in Content-Length but sliced back by UTF-16 code
units, so the body comes up short and decoding yields no envelope at all
instead of the original envelope. -/
theorem C6_counterexample :
    Ipc.parseEnvelopes (Ipc.encodeMessage ⟨1, "r".toList, .ping,
        .str [Char.ofNat 233]⟩) = .ok [] ∧
    Ipc.toMessageEnvelope ⟨1, "r".toList, .ping, .str [Char.ofNat 233]⟩ ∉
      ([] : List Ipc.MessageEnvelope) := by
  refine ⟨by decide, by decide⟩

/-- C6 (amended): for every request envelope whose JSON serialisation is pure
ASCII, decoding the encoding yields exactly the one original envelope. -/
theorem C6_roundtrip_ascii (e : Ipc.RequestEnvelope)
    (hascii : ∀ c ∈ renderJson (Ipc.requestJson e), asciiChar c = true) :
    Ipc.parseEnvelopes (Ipc.encodeMessage e) = .ok [Ipc.toMessageEnvelope e] :=
  Ipc.parseEnvelopes_encodeMessage e hascii

/-- C6 witness: a concrete ASCII ping envelope round-trips to itself. -/
theorem C6_witness :
    (∀ c ∈ renderJson (Ipc.requestJson ⟨1, "r1".toList, .ping, .str "ok".toList⟩),
      asciiChar c = true) ∧
    Ipc.parseEnvelopes (Ipc.encodeMessage ⟨1, "r1".toList, .ping, .str "ok".toList⟩) =
      .ok [Ipc.toMessageEnvelope ⟨1, "r1".toList, .ping, .str "ok".toList⟩] :=
  ⟨by decide, C6_roundtrip_ascii ⟨1, "r1".toList, .ping, .str "ok".toList⟩ (by decide)⟩

theorem DixieHost.hostDispatch_invalidMessage (root : Json) (rid : Option Str)
    (cmd msg : Str)
    (h : DixieHost.hostDispatch root =
      .errorResponse rid cmd "INVALID_MESSAGE".toList msg) :
    msg = DixieHost.missingCommandMsg ∨
      ∃ mt, msg = DixieHost.unsupportedTypeMsg mt ∧
        DixieHost.equalsIgnoreCase mt "request".toList = false ∧
        DixieHost.tryGetProperty root "type".toList ≠ .ok none := by
  unfold DixieHost.hostDispatch at h
  split at h
  · simp at h
  split at h
  · simp at h
  split at h
  · simp at h
  split at h
  · simp at h
  split at h
  · simp at h
  rename_i typeEl htype
  split at h
  · simp at h
  rename_i messageType hmt
  split at h
  · rename_i hcond
    rw [DixieHost.HostAction.errorResponse.injEq] at h
    refine Or.inr ⟨messageType, h.2.2.2.symm, hcond, ?_⟩
    cases typeEl with
    | none =>
      dsimp only at hmt
      injection hmt with hmt2
      rw [← hmt2] at hcond
      exact absurd hcond (by decide)
    | some el =>
      intro heq
      rw [heq] at htype
      injection htype with htype2
      exact Option.noConfusion htype2
  split at h
  · rw [DixieHost.HostAction.errorResponse.injEq] at h
    exact Or.inl h.2.2.2.symm
  split at h
  · simp at h
  dsimp only at h
  split at h
  · simp at h
  split at h
  · simp at h
  split at h
  · simp at h
  split at h
  · simp at h
  rw [DixieHost.HostAction.errorResponse.injEq] at h
  exact absurd h.2.2.1 (by decide)

/-- C10 counterexample: the empty envelope has no "type" property, yet it is
not dispatched: it receives the INVALID_MESSAGE error response (for the
missing command), refuting that only envelopes with an explicit non-request
type receive INVALID_MESSAGE. -/
theorem C10_counterexample :
    DixieHost.tryGetProperty (Json.obj .nil) "type".toList = .ok none ∧
    DixieHost.hostDispatch (Json.obj .nil) =
      .errorResponse none "unknown".toList "INVALID_MESSAGE".toList
        DixieHost.missingCommandMsg := by
  refine ⟨by decide, by decide⟩

/-- C10 (amended): an envelope without a "type" property defaults to
"request" and is never rejected for its type — an INVALID_MESSAGE response is
either the missing-command rejection or an unsupported-type rejection for an
explicitly present type that differs from "request" ignoring case; an
envelope with a valid command and either no type or a mixed-case "ReQuEsT"
type is dispatched normally. -/
theorem C10_type_defaulting :
    (∀ (root : Json) (rid : Option Str) (cmd msg : Str),
      DixieHost.hostDispatch root =
        .errorResponse rid cmd "INVALID_MESSAGE".toList msg →
      msg = DixieHost.missingCommandMsg ∨
        ∃ mt, msg = DixieHost.unsupportedTypeMsg mt ∧
          DixieHost.equalsIgnoreCase mt "request".toList = false ∧
          DixieHost.tryGetProperty root "type".toList ≠ .ok none) ∧
    DixieHost.hostDispatch (Json.obj (.cons "requestId".toList (.str "1".toList)
      (.cons "command".toList (.str "ping".toList) .nil))) =
      .handle .ping (some "1".toList) none ∧
    DixieHost.hostDispatch (Json.obj (.cons "type".toList (.str "ReQuEsT".toList)
      (.cons "requestId".toList (.str "1".toList)
        (.cons "command".toList (.str "ping".toList) .nil)))) =
      .handle .ping (some "1".toList) none :=
  ⟨DixieHost.hostDispatch_invalidMessage, by decide, by decide⟩

/-- C10 witness: the INVALID_MESSAGE response of the empty envelope is
accounted for by the missing-command case of the characterization. -/
theorem C10_witness :
    DixieHost.hostDispatch (Json.obj .nil) =
      .errorResponse none "unknown".toList "INVALID_MESSAGE".toList
        DixieHost.missingCommandMsg ∧
    (DixieHost.missingCommandMsg = DixieHost.missingCommandMsg ∨
      ∃ mt, DixieHost.missingCommandMsg = DixieHost.unsupportedTypeMsg mt ∧
        DixieHost.equalsIgnoreCase mt "request".toList = false ∧
        DixieHost.tryGetProperty (Json.obj .nil) "type".toList ≠ .ok none) :=
  ⟨by decide,
   C10_type_defaulting.1 (Json.obj .nil) none "unknown".toList
     DixieHost.missingCommandMsg (by decide)⟩

/-- C4 counterexample: after a frame with the malformed header
"Content-Length: abc" the host answers INVALID_HEADERS and keeps serving —
the very next frame's shutdown request is still dispatched and produces the
normal shutdown exit, refuting that the host exits on bad headers. -/
theorem C4_counterexample :
    DixieHost.hostMain
        ("Content-Length: abc\r\n\r\nContent-Length: 38\r\n\r\n\x7b\"requestId\":\"1\",\"command\":\"shutdown\"\x7d".toList) =
      ([.errorResponse none "unknown".toList "INVALID_HEADERS".toList
          DixieHost.invalidHeadersMsg,
        .handle .shutdown (some "1".toList) none], .shutdownExit) := by
  decide

/-- C4 (amended): a frame whose headers lack a parseable non-negative
Content-Length yields the INVALID_HEADERS error response and the main loop
continues with the remaining input (the condition is recoverable; it does
not terminate the host). -/
theorem C4_invalid_headers_recoverable (s : Str) (headers : List (Str × Str))
    (rest : Str) (hh : DixieHost.readHeaders s = (some headers, rest))
    (hbad : DixieHost.badContentLength headers) :
    DixieHost.hostStep s =
      .frame [.errorResponse none "unknown".toList "INVALID_HEADERS".toList
        DixieHost.invalidHeadersMsg] none rest ∧
    ∀ f, DixieHost.hostRun (f + 1) s =
      (.errorResponse none "unknown".toList "INVALID_HEADERS".toList
          DixieHost.invalidHeadersMsg :: (DixieHost.hostRun f rest).1,
        (DixieHost.hostRun f rest).2) := by
  have hstep : DixieHost.hostStep s =
      .frame [.errorResponse none "unknown".toList "INVALID_HEADERS".toList
        DixieHost.invalidHeadersMsg] none rest := by
    unfold DixieHost.hostStep
    rw [hh]
    dsimp only
    unfold DixieHost.badContentLength at hbad
    rcases hd : DixieHost.dictGet headers ("Content-Length".toList) with _ | v
    · rfl
    rw [hd] at hbad
    dsimp only
    dsimp only at hbad
    rcases ht : DixieHost.tryParseInt v with _ | i
    · rfl
    rw [ht] at hbad
    dsimp only
    dsimp only at hbad
    rw [if_pos hbad]
  refine ⟨hstep, fun f => ?_⟩
  rw [DixieHost.hostRun.eq_def]
  dsimp only
  rw [hstep]
  rfl

/-- C4 witness: a lone malformed-header frame produces the INVALID_HEADERS
response with the loop positioned at the (empty) remaining input. -/
theorem C4_witness :
    DixieHost.readHeaders "Content-Length: abc\r\n\r\n".toList =
      (some [("Content-Length".toList, "abc".toList)], []) ∧
    DixieHost.hostStep "Content-Length: abc\r\n\r\n".toList =
      .frame [.errorResponse none "unknown".toList "INVALID_HEADERS".toList
        DixieHost.invalidHeadersMsg] none [] :=
  ⟨by decide,
   (C4_invalid_headers_recoverable "Content-Length: abc\r\n\r\n".toList
      [("Content-Length".toList, "abc".toList)] [] (by decide)
      (by unfold DixieHost.badContentLength; exact trivial)).1⟩

/-- C2 witness: on the mixed-endings input "a\r\nb" under crlf, the
normalized text is fully \r\n-terminated inside, and the final output ends
with a bare line feed. -/
theorem C2_witness :
    EchoHost.wellCrlf (EchoHost.NormalizeLineEndings "a\r\nb".toList "crlf".toList) = true ∧
    ([LF].isSuffixOf (EchoHost.handleFormatText "a\r\nb".toList "crlf".toList)) = true :=
  ⟨(C2_crlf_normalization "a\r\nb".toList).1,
   (C2_crlf_normalization "a\r\nb".toList).2.1⟩
